import Mathlib

/-!
Verification development for the sketch-to-scaffold generation pipeline.

The TypeScript sources are shallowly embedded over `List Char`:

* `parseGeneratedContent` and its strategy cascade
  (`src/src/services/AIService.ts`, `parseWithRegex`,
  `extractJsonFromContent`, `sanitizeJsonString`, `createFallbackContent`);
* the Gemini retry loop of `generateWithGemini` and the top level
  `generateWebsite` wrapper, with the network modelled as an explicit
  per-attempt oracle;
* `validateSinglePageContent`, `buildContinuationPrompt`-free parts of
  `ensureCompleteGeneration`, and `mergeContent`;
* `buildSystemPrompt`;
* the image-placeholder resolver `enhanceWithImages` of the revision kept
  in `src/unnamed/part_000` / `src/script.js`, with the Unsplash fetches
  modelled as an explicit image oracle.

JavaScript strings are modelled as `List Char`; the regular expressions the
code uses are each embedded as the concrete scanning function realising the
JS semantics of that particular pattern (leftmost match, greedy/lazy
quantifier behaviour, the `i` flag as ASCII case folding, `.` not matching
newlines).  `String.prototype.replace` with a string replacement applies
the `$`-substitution rules, which are modelled in `dollarSub`.
-/

/-- Character list standing for a JavaScript string. -/
abbrev Str := List Char

/-- Shorthand turning a Lean string literal into the `Str` model. -/
def str (s : String) : Str := s.data

/-- ASCII case folding used to model the `i` regex flag. -/
def lowerStr (s : Str) : Str := s.map Char.toLower

/-- Whitespace class of JavaScript `\s` restricted to its ASCII members
(space, tab, newline, carriage return, vertical tab, form feed). -/
def wsChar (c : Char) : Bool :=
  c = ' ' || c = '\t' || c = '\n' || c = '\r' || c = '\x0b' || c = '\x0c'

/-- Word-character class of JavaScript `\w`: ASCII letters, digits, `_`. -/
def wordChar (c : Char) : Bool :=
  c.isAlpha || c.isDigit || c = '_'

/-- The backquote character (written by code point to keep literals plain). -/
def backquoteChar : Char := Char.ofNat 96

/-- The single-quote character. -/
def singleQuoteChar : Char := Char.ofNat 39

/-- Does `pat` occur in `s` starting at index `i`? -/
def occursAtB (pat s : Str) (i : Nat) : Bool :=
  pat.isPrefixOf (s.drop i)

/-- First index `< bound` satisfying `p`, scanning upward from `i`. -/
def findIdxFrom (p : Nat → Bool) : Nat → Nat → Option Nat
  | 0, _ => none
  | fuel + 1, i => if p i then some i else findIdxFrom p fuel (i + 1)

/-- First index in `[0, bound)` satisfying `p`. -/
def findIdxB (p : Nat → Bool) (bound : Nat) : Option Nat :=
  findIdxFrom p bound 0

/-- Last index in `[0, bound)` satisfying `p`. -/
def lastIdxB (p : Nat → Bool) (bound : Nat) : Option Nat :=
  (List.range bound).reverse.find? p

/-- Index of the first occurrence of `pat` in `s` (JS `indexOf` on a
constant pattern; also the leftmost-match rule of a literal regex). -/
def findSub (pat s : Str) : Option Nat :=
  findIdxB (occursAtB pat s) (s.length + 1)

/-- Case-insensitive `findSub`, modelling a literal regex with the `i`
flag.  Case folding preserves length, so the index is valid in `s`. -/
def findSubCI (pat s : Str) : Option Nat :=
  findSub (lowerStr pat) (lowerStr s)

/-- Does `pat` occur anywhere in `s`? -/
def containsSub (pat s : Str) : Bool :=
  (findSub pat s).isSome

/-- Case-insensitive containment (a literal regex `test` with flag `i`). -/
def containsSubCI (pat s : Str) : Bool :=
  (findSub (lowerStr pat) (lowerStr s)).isSome

/-- Number of indices of `s` at which `pat` occurs. -/
def countOcc (pat s : Str) : Nat :=
  (List.range (s.length + 1)).countP (occursAtB pat s)

/-- The `GetSubstitution` processing JavaScript applies to the replacement
string of `String.prototype.replace`: `$$`, `$&`, `$`-backquote and
`$`-quote are expanded; any other `$` sequence is kept literally (the
search value is a plain string, so there are no capture groups). -/
def dollarSub (matched before after : Str) : Str → Str
  | [] => []
  | c :: rest =>
      if c = '$' then
        match rest with
        | [] => ['$']
        | c2 :: rest2 =>
            if c2 = '$' then '$' :: dollarSub matched before after rest2
            else if c2 = '&' then matched ++ dollarSub matched before after rest2
            else if c2 = backquoteChar then before ++ dollarSub matched before after rest2
            else if c2 = singleQuoteChar then after ++ dollarSub matched before after rest2
            else '$' :: dollarSub matched before after (c2 :: rest2)
      else c :: dollarSub matched before after rest

/-- JavaScript `s.replace(pat, rep)` with string `pat`: replace the first
occurrence, applying `$` substitution to `rep`. -/
def jsReplaceFirst (s pat rep : Str) : Str :=
  match findSub pat s with
  | none => s
  | some i =>
      s.take i ++ dollarSub pat (s.take i) (s.drop (i + pat.length)) rep
        ++ s.drop (i + pat.length)

/-- Global replacement of a constant pattern (a `/.../g` regex whose
pattern is a literal): scan left to right, never rescanning the
replacement text.  Used for the `\n`, `\"`, `\t`, `\\` unescaping chains,
whose replacements contain no `$`. -/
def replaceAllGo (pat rep : Str) : Nat → Str → Str
  | 0, s => s
  | fuel + 1, s =>
      if !pat.isEmpty && pat.isPrefixOf s then
        rep ++ replaceAllGo pat rep fuel (s.drop pat.length)
      else
        match s with
        | [] => []
        | c :: t => c :: replaceAllGo pat rep fuel t

/-- Global constant-pattern replacement, entry point. -/
def replaceAllSub (pat rep s : Str) : Str :=
  replaceAllGo pat rep s.length s

/-- JavaScript `String.prototype.trim` (ASCII whitespace members). -/
def jsTrim (s : Str) : Str :=
  ((s.dropWhile wsChar).reverse.dropWhile wsChar).reverse

/-- The four-step unescaping chain the parser applies to captured file
content: `\n`, `\"`, `\t`, `\\`, in that order, each a global replace. -/
def unescapeContent (c : Str) : Str :=
  replaceAllSub (str "\\\\") (str "\\")
    (replaceAllSub (str "\\t") (str "\t")
      (replaceAllSub (str "\\\"") (str "\"")
        (replaceAllSub (str "\\n") (str "\n") c)))

/-! ### JSON values and `JSON.parse`

The JSON branch of the recovery parser calls the host `JSON.parse`.  The
parser below follows the ECMAScript JSON grammar: insignificant whitespace
is space, tab, newline and carriage return; strings reject raw control
characters and accept the eight named escapes plus `\uXXXX` (surrogate
pairs are combined; a lone surrogate is approximated by U+FFFD, the only
point where the model deviates from UTF-16 code units); numbers follow the
strict JSON number grammar and are kept as their lexeme, which is all the
pipeline ever inspects (truthiness). -/

inductive Json where
  | null : Json
  | bool (b : Bool) : Json
  | num (lexeme : Str) : Json
  | jstr (s : Str) : Json
  | arr (items : List Json) : Json
  | obj (fields : List (Str × Json)) : Json

/-- JSON insignificant whitespace. -/
def jsonWs (c : Char) : Bool :=
  c = ' ' || c = '\t' || c = '\n' || c = '\r'

/-- Hex digit value. -/
def hexVal (c : Char) : Option Nat :=
  if c.isDigit then some (c.toNat - 48)
  else if 'a' ≤ c && c ≤ 'f' then some (c.toNat - 87)
  else if 'A' ≤ c && c ≤ 'F' then some (c.toNat - 55)
  else none

/-- Decode four hex digits. -/
def hex4 (a b c d : Char) : Option Nat := do
  let va ← hexVal a
  let vb ← hexVal b
  let vc ← hexVal c
  let vd ← hexVal d
  pure (((va * 16 + vb) * 16 + vc) * 16 + vd)

/-- Parse the body of a JSON string (after the opening quote), returning
the decoded characters and the input following the closing quote; `fuel`
bounds the number of remaining input characters. -/
def parseJsonStrGo : Nat → Str → Option (Str × Str)
  | 0, _ => none
  | _ + 1, [] => none
  | fuel + 1, cs =>
    match cs with
    | [] => none
    | '"' :: rest => some ([], rest)
    | '\\' :: esc =>
      (match esc with
      | '"' :: rest => (parseJsonStrGo fuel rest).map (fun p => ('"' :: p.1, p.2))
      | '\\' :: rest => (parseJsonStrGo fuel rest).map (fun p => ('\\' :: p.1, p.2))
      | '/' :: rest => (parseJsonStrGo fuel rest).map (fun p => ('/' :: p.1, p.2))
      | 'b' :: rest => (parseJsonStrGo fuel rest).map (fun p => ('\x08' :: p.1, p.2))
      | 'f' :: rest => (parseJsonStrGo fuel rest).map (fun p => ('\x0c' :: p.1, p.2))
      | 'n' :: rest => (parseJsonStrGo fuel rest).map (fun p => ('\n' :: p.1, p.2))
      | 'r' :: rest => (parseJsonStrGo fuel rest).map (fun p => ('\r' :: p.1, p.2))
      | 't' :: rest => (parseJsonStrGo fuel rest).map (fun p => ('\t' :: p.1, p.2))
      | 'u' :: a :: b :: c :: d :: rest =>
          (match hex4 a b c d with
          | none => none
          | some n =>
              if 0xd800 ≤ n && n ≤ 0xdbff then
                match rest with
                | '\\' :: 'u' :: e :: f :: g :: h :: rest2 =>
                    (match hex4 e f g h with
                    | some m =>
                        if 0xdc00 ≤ m && m ≤ 0xdfff then
                          (parseJsonStrGo fuel rest2).map (fun p =>
                            (Char.ofNat (0x10000 + (n - 0xd800) * 0x400 + (m - 0xdc00)) :: p.1, p.2))
                        else (parseJsonStrGo fuel rest2).map (fun p =>
                          (Char.ofNat 0xfffd :: Char.ofNat 0xfffd :: p.1, p.2))
                    | none => none)
                | _ => (parseJsonStrGo fuel rest).map (fun p => (Char.ofNat 0xfffd :: p.1, p.2))
              else if 0xdc00 ≤ n && n ≤ 0xdfff then
                (parseJsonStrGo fuel rest).map (fun p => (Char.ofNat 0xfffd :: p.1, p.2))
              else
                (parseJsonStrGo fuel rest).map (fun p => (Char.ofNat n :: p.1, p.2)))
      | _ => none)
    | c :: rest =>
      if c.toNat < 0x20 then none
      else (parseJsonStrGo fuel rest).map (fun p => (c :: p.1, p.2))

/-- String-body parser, entry point. -/
def parseJsonStr (s : Str) : Option (Str × Str) :=
  parseJsonStrGo (s.length + 1) s

/-- Take a nonempty run of decimal digits. -/
def digitRun (s : Str) : Option (Str × Str) :=
  let d := s.takeWhile Char.isDigit
  if d.isEmpty then none else some (d, s.drop d.length)

/-- Parse a JSON number lexeme (strict grammar), returning it verbatim. -/
def parseJsonNum (s : Str) : Option (Str × Str) := do
  let (sgn, s1) := match s with
    | '-' :: t => (['-'], t)
    | t => (([] : Str), t)
  let (ip, s2) ← match s1 with
    | '0' :: t => some (['0'], t)
    | c :: _ =>
        if c.isDigit then digitRun s1 else none
    | [] => none
  let (fp, s3) ← match s2 with
    | '.' :: t => (digitRun t).map (fun p => ('.' :: p.1, p.2))
    | t => some (([] : Str), t)
  let (ep, s4) ← match s3 with
    | c :: t =>
        if c = 'e' || c = 'E' then
          match t with
          | '+' :: u => (digitRun u).map (fun p => (c :: '+' :: p.1, p.2))
          | '-' :: u => (digitRun u).map (fun p => (c :: '-' :: p.1, p.2))
          | u => (digitRun u).map (fun p => (c :: p.1, p.2))
        else some (([] : Str), s3)
    | [] => some (([] : Str), s3)
  pure (sgn ++ ip ++ fp ++ ep, s4)

mutual

/-- Parse one JSON value from input already stripped of leading
whitespace; `fuel` bounds the nesting depth. -/
def parseJsonVal : Nat → Str → Option (Json × Str)
  | 0, _ => none
  | _ + 1, [] => none
  | fuel + 1, s@(c :: rest) =>
      match s with
      | 'n' :: 'u' :: 'l' :: 'l' :: r => some (Json.null, r)
      | 't' :: 'r' :: 'u' :: 'e' :: r => some (Json.bool true, r)
      | 'f' :: 'a' :: 'l' :: 's' :: 'e' :: r => some (Json.bool false, r)
      | _ =>
        if c = '"' then
          (parseJsonStr rest).map (fun p => (Json.jstr p.1, p.2))
        else if c = '[' then
          parseJsonArr fuel (rest.dropWhile jsonWs)
        else if c = '{' then
          parseJsonObj fuel (rest.dropWhile jsonWs)
        else if c = '-' || c.isDigit then
          (parseJsonNum s).map (fun p => (Json.num p.1, p.2))
        else none

/-- Parse array items (after `[` and whitespace). -/
def parseJsonArr : Nat → Str → Option (Json × Str)
  | 0, _ => none
  | fuel + 1, s =>
      match s with
      | ']' :: r => some (Json.arr [], r)
      | _ => do
          let (v, r1) ← parseJsonVal fuel s
          parseJsonArrTail fuel [v] (r1.dropWhile jsonWs)

/-- Parse `, item`* `]` continuations of an array. -/
def parseJsonArrTail : Nat → List Json → Str → Option (Json × Str)
  | 0, _, _ => none
  | fuel + 1, acc, s =>
      match s with
      | ']' :: r => some (Json.arr acc.reverse, r)
      | ',' :: r => do
          let (v, r1) ← parseJsonVal fuel (r.dropWhile jsonWs)
          parseJsonArrTail fuel (v :: acc) (r1.dropWhile jsonWs)
      | _ => none

/-- Parse object members (after the opening brace and whitespace). -/
def parseJsonObj : Nat → Str → Option (Json × Str)
  | 0, _ => none
  | fuel + 1, s =>
      match s with
      | '}' :: r => some (Json.obj [], r)
      | '"' :: r => do
          let (k, r1) ← parseJsonStr r
          match r1.dropWhile jsonWs with
          | ':' :: r2 => do
              let (v, r3) ← parseJsonVal fuel (r2.dropWhile jsonWs)
              parseJsonObjTail fuel [(k, v)] (r3.dropWhile jsonWs)
          | _ => none
      | _ => none

/-- Parse `, "key": value`* `}` continuations of an object. -/
def parseJsonObjTail : Nat → List (Str × Json) → Str → Option (Json × Str)
  | 0, _, _ => none
  | fuel + 1, acc, s =>
      match s with
      | '}' :: r => some (Json.obj acc.reverse, r)
      | ',' :: r =>
          match r.dropWhile jsonWs with
          | '"' :: r1 => do
              let (k, r2) ← parseJsonStr r1
              match r2.dropWhile jsonWs with
              | ':' :: r3 => do
                  let (v, r4) ← parseJsonVal fuel (r3.dropWhile jsonWs)
                  parseJsonObjTail fuel ((k, v) :: acc) (r4.dropWhile jsonWs)
              | _ => none
          | _ => none
      | _ => none

end

/-- The host `JSON.parse`: `none` models a thrown `SyntaxError`. -/
def jsonParse (s : Str) : Option Json :=
  match parseJsonVal (s.length + 1) (s.dropWhile jsonWs) with
  | some (v, rest) => if (rest.dropWhile jsonWs).isEmpty then some v else none
  | none => none

/-- Is the mantissa of a JSON number lexeme zero (making it falsy)? -/
def numLexIsZero (lexeme : Str) : Bool :=
  let noSign := match lexeme with
    | '-' :: t => t
    | t => t
  let mant := noSign.takeWhile (fun c => !(c = 'e' || c = 'E'))
  mant.all (fun c => c = '0' || c = '.')

/-- JavaScript truthiness of a parsed JSON value. -/
def jsTruthy : Json → Bool
  | Json.null => false
  | Json.bool b => b
  | Json.num lexeme => !numLexIsZero lexeme
  | Json.jstr s => !s.isEmpty
  | Json.arr _ => true
  | Json.obj _ => true

/-- Property access `v[key]` on a parsed JSON value: `none` models
`undefined` (non-objects included); with duplicate keys the last
assignment wins, as in ECMAScript object construction. -/
def jsGet (v : Json) (key : Str) : Option Json :=
  match v with
  | Json.obj fields => (fields.reverse.find? (fun p => p.1 = key)).map (·.2)
  | _ => none

/-! ### Response Recovery Parser (`AIService.parseGeneratedContent`)

Embeds `src/src/services/AIService.ts` lines 553-732.  Because the JSON
strategy hands back whatever value `JSON.parse` produced for the `files`
and `pages` fields, the parser's result is modelled with dynamic
(JSON-valued) `files`/`pages` fields; the regex and fallback strategies
construct real file objects, rendered into that dynamic view. -/

/-- A recovered file record (`{path, content, type}`). -/
structure GFile where
  path : Str
  content : Str
  ftype : Str

/-- The runtime view of a `GenerationResponse` produced by the parser. -/
structure DynResponse where
  success : Bool
  files : Json
  pages : Option Json
  error : Option Str

/-- File record as the JSON object value it is at runtime. -/
def gfileJson (f : GFile) : Json :=
  Json.obj [(str "path", Json.jstr f.path),
            (str "content", Json.jstr f.content),
            (str "type", Json.jstr f.ftype)]

/-- Consume a literal at the head of the input. -/
def litConsume (lit : String) (s : Str) : Option Str :=
  if (str lit).isPrefixOf s then some (s.drop (str lit).length) else none

/-- Case-insensitive head-literal test. -/
def litHereCI (lit : String) (s : Str) : Bool :=
  (lowerStr (str lit)).isPrefixOf (lowerStr (s.take (str lit).length))

/-- The lazy tail of the tuple regex
`"content":\s*"([\s\S]*?)"\s*(?=}|\],)`: scan for the earliest closing
quote that is followed (after maximal whitespace, which the match
consumes) by `}` or `],`; the lookahead itself is not consumed. -/
def lazyCapture : Nat → Str → Str → Option (Str × Str)
  | 0, _, _ => none
  | fuel + 1, acc, s =>
      match s with
      | [] => none
      | c :: t =>
          if c = '"' then
            let t2 := t.dropWhile wsChar
            if (str "\x7d").isPrefixOf t2 || (str "],").isPrefixOf t2 then
              some (acc.reverse, t2)
            else lazyCapture fuel (c :: acc) t
          else lazyCapture fuel (c :: acc) t

/-- Attempt, at one start position, the continuation
`[\s\S]*?"content":\s*"([\s\S]*?)"\s*(?=}|\],)` of the tuple regex: the
lazy star advances the start of `"content":` one character at a time and
the first start whose remainder also matches wins. -/
def findContentPart : Nat → Str → Option (Str × Str)
  | 0, _ => none
  | fuel + 1, s =>
      (match (litConsume "\"content\":" s).bind (fun s1 =>
          (litConsume "\"" (s1.dropWhile wsChar)).bind (fun s3 =>
            lazyCapture (s3.length + 1) [] s3)) with
      | some r => some r
      | none =>
          match s with
          | [] => none
          | _ :: t => findContentPart fuel t)

/-- One attempt of the tuple regex
`"path":\s*"(\w+\.html)"[\s\S]*?"content":\s*"([\s\S]*?)"\s*(?=}|\],)` at
the head of `s`: returns the file name, the raw captured content and the
input following the match.  `\w+` takes the maximal word run; with `.`
outside the word class, backtracking cannot shorten it. -/
def matchTupleHere (s : Str) : Option (Str × Str × Str) :=
  (litConsume "\"path\":" s).bind (fun s1 =>
    (litConsume "\"" (s1.dropWhile wsChar)).bind (fun s3 =>
      let w := s3.takeWhile wordChar
      if w.isEmpty then none
      else
        (litConsume ".html\"" (s3.drop w.length)).bind (fun s5 =>
          (findContentPart (s5.length + 1) s5).map (fun p =>
            (w ++ str ".html", p.1, p.2)))))

/-- `matchAll` of the tuple regex: leftmost matches, resuming after each
match end (the `g` flag). -/
def scanTuples : Nat → Str → List (Str × Str)
  | 0, _ => []
  | fuel + 1, s =>
      match matchTupleHere s with
      | some (f, c, rest) => (f, c) :: scanTuples fuel rest
      | none =>
          match s with
          | [] => []
          | _ :: t => scanTuples fuel t

/-- `match` against `/<!DOCTYPE html[\s\S]*?<\/html>/gi`: each match runs
from a `<!DOCTYPE html` (case-insensitive) to the earliest following
`</html>`; scanning resumes after the match. -/
def scanDoctype : Nat → Str → List Str
  | 0, _ => []
  | fuel + 1, s =>
      if litHereCI "<!DOCTYPE html" s then
        match findSubCI (str "</html>") (s.drop 14) with
        | some k => s.take (14 + k + 7) :: scanDoctype fuel (s.drop (14 + k + 7))
        | none =>
            match s with
            | [] => []
            | _ :: t => scanDoctype fuel t
      else
        match s with
        | [] => []
        | _ :: t => scanDoctype fuel t

/-- Decimal digits of a number, used for the `page<N>.html` names. -/
def natDigits (n : Nat) : Str := (toString n).data

/-- `AIService.parseWithRegex` (lines 643-690): extract
`"path"/"content"` tuples, unescape them and keep those longer than 100
characters; if none, fall back to raw `<!DOCTYPE html ... </html>`
sniffing, naming the blocks `index.html`, `page2.html`, ... -/
def parseWithRegex (content : Str) : List GFile × List Str :=
  let tuples := scanTuples (content.length + 1) content
  let files1 := tuples.filterMap (fun t =>
    let h := unescapeContent t.2
    if 100 < h.length then some (GFile.mk t.1 h (str "html")) else none)
  let files :=
    if files1.isEmpty then
      (scanDoctype (content.length + 1) content).enum.map (fun p =>
        GFile.mk (if p.1 = 0 then str "index.html"
                  else str "page" ++ natDigits (p.1 + 1) ++ str ".html")
          p.2 (str "html"))
    else files1
  (files, files.map (·.path))

/-- One start-position attempt of the fenced-code pattern; `body` is the
input just after the three backquotes.  `(?:json)?` greedily tries the
`json` spelling first; `\s*` then requires `{`; the greedy
`[\s\S]*` makes the capture run to the last `}` that is followed (after
whitespace) by a closing fence. -/
def ticksBody (whole : Str) : Option Str :=
  let attempt := fun (t : Str) =>
    let t2 := t.dropWhile wsChar
    match t2 with
    | '{' :: _ =>
        match lastIdxB (fun m =>
            t2.getD m ' ' = '}' &&
            (str "```").isPrefixOf ((t2.drop (m + 1)).dropWhile wsChar)) t2.length with
        | some m => some (t2.take (m + 1))
        | none => none
    | _ => none
  match whole with
  | _ =>
    (if litHereCI "json" whole then attempt (whole.drop 4) else none).orElse
      (fun _ => attempt whole)

/-- Leftmost match of ```` /```(?:json)?\s*(\{[\s\S]*\})\s*```/i ````. -/
def extractTicks : Nat → Str → Option Str
  | 0, _ => none
  | fuel + 1, s =>
      match litConsume "```" s with
      | some body =>
          (match ticksBody body with
          | some r => some r
          | none =>
              match s with
              | [] => none
              | _ :: t => extractTicks fuel t)
      | none =>
          match s with
          | [] => none
          | _ :: t => extractTicks fuel t

/-- Indices of `s` where the (case-insensitively matched) pattern occurs. -/
def idxListCI (pat s : Str) : List Nat :=
  (List.range (s.length + 1)).filter (occursAtB (lowerStr pat) (lowerStr s))

/-- Leftmost match of `/(\{[\s\S]*"files"[\s\S]*\})/i`: the first `{`
having a later `"files"` with a still-later `}`; greediness extends the
match to the last such `}`. -/
def extractFilesObj (s : Str) : Option Str :=
  let filesAt := idxListCI (str "\"files\"") s
  let braceAt := (List.range s.length).filter (fun m => s.getD m ' ' = '}')
  match findIdxB (fun i =>
      s.getD i ' ' = '{' &&
      filesAt.any (fun k => i + 1 ≤ k && braceAt.any (fun m => k + 7 ≤ m)))
      s.length with
  | none => none
  | some i =>
      match (braceAt.filter (fun m => filesAt.any (fun k => i + 1 ≤ k && k + 7 ≤ m))).getLast? with
      | some m => some ((s.take (m + 1)).drop i)
      | none => none

/-- Leftmost match of `/(\{[\s\S]*\})/`: first `{` with a later `}`,
extended greedily to the last `}`. -/
def extractAnyObj (s : Str) : Option Str :=
  let braceAt := (List.range s.length).filter (fun m => s.getD m ' ' = '}')
  match findIdxB (fun i =>
      s.getD i ' ' = '{' && braceAt.any (fun m => i + 1 ≤ m)) s.length with
  | none => none
  | some i =>
      match (braceAt.filter (fun m => i + 1 ≤ m)).getLast? with
      | some m => some ((s.take (m + 1)).drop i)
      | none => none

/-- `AIService.extractJsonFromContent` (lines 604-620): the three
extraction patterns tried in order. -/
def extractJsonFromContent (content : Str) : Option Str :=
  match extractTicks (content.length + 1) content with
  | some j => some j
  | none =>
      match extractFilesObj content with
      | some j => some j
      | none => extractAnyObj content

/-- `AIService.sanitizeJsonString` (lines 622-641). -/
def sanitizeJsonString (jsonStr : Str) : Str :=
  let j1 := jsTrim jsonStr
  let j2 :=
    if j1.head? = some '{' then j1
    else
      match findIdxB (fun i => j1.getD i ' ' = '{') j1.length with
      | some ob => j1.drop ob
      | none => j1
  if j2.getLast? = some '}' then j2
  else
    match lastIdxB (fun i => j2.getD i ' ' = '}') j2.length with
    | some cb => j2.take (cb + 1)
    | none => j2

/-- `AIService.createFallbackContent` (lines 692-732): find the first
HTML-ish opening, cut at the first `</html>` (or text end) plus seven
characters, unescape, and keep the result when longer than 50
characters. -/
def fallbackFiles (content : Str) : List GFile :=
  match findIdxB (fun i =>
      litHereCI "<!DOCTYPE html" (content.drop i) || litHereCI "<html" (content.drop i) ||
      litHereCI "<head" (content.drop i) || litHereCI "<body" (content.drop i))
      (content.length + 1) with
  | none => []
  | some i =>
      let h0 := content.drop i
      let endRel :=
        (match findSubCI (str "</html>") h0 with
         | some k => k
         | none => h0.length) + 7
      let h2 := unescapeContent (h0.take endRel)
      if 50 < h2.length then [GFile.mk (str "index.html") h2 (str "html")] else []

def createFallbackContent (content : Str) : DynResponse :=
  let files := fallbackFiles content
  { success := !files.isEmpty
    files := Json.arr (files.map gfileJson)
    pages := some (Json.arr (if files.isEmpty then [] else [Json.jstr (str "index.html")]))
    error := none }

/-- The `catch` block of `parseGeneratedContent`: try the fallback
synthesizer; if it recovered nothing, report failure with the thrown
error's message. -/
def parseCatch (content : Str) (msg : Str) : DynResponse :=
  let fallbackResult := createFallbackContent content
  match fallbackResult.files with
  | Json.arr (_ :: _) => fallbackResult
  | _ =>
      { success := false
        files := Json.arr []
        pages := none
        error := some (str "Failed to parse generated content: " ++ msg) }

/-- `AIService.parseGeneratedContent` (lines 553-602): regex strategy,
then JSON extraction + sanitization + `JSON.parse`, with the fallback
synthesizer behind the `catch`.  (The exact `SyntaxError` message of the
host `JSON.parse` is abstracted to a fixed token; no claim inspects it.) -/
def parseGeneratedContent (content : Str) : DynResponse :=
  let rr := parseWithRegex content
  if !rr.1.isEmpty then
    { success := true
      files := Json.arr (rr.1.map gfileJson)
      pages := some (Json.arr (rr.2.map Json.jstr))
      error := none }
  else
    match extractJsonFromContent content with
    | none => parseCatch content (str "No valid JSON structure found in response")
    | some j =>
        match jsonParse (sanitizeJsonString j) with
        | none => parseCatch content (str "SyntaxError")
        | some parsed =>
            if jsTruthy parsed then
              match jsGet parsed (str "files") with
              | some fv =>
                  if jsTruthy fv then
                    { success := true
                      files := fv
                      pages := some (match jsGet parsed (str "pages") with
                        | some pv => if jsTruthy pv then pv else Json.arr [Json.jstr (str "index.html")]
                        | none => Json.arr [Json.jstr (str "index.html")])
                      error := none }
                  else parseCatch content (str "Could not parse valid file structure from response")
              | none => parseCatch content (str "Could not parse valid file structure from response")
            else parseCatch content (str "Could not parse valid file structure from response")

/-! ### Typed data model

The statically-typed fragment of the service (`AIModel`,
`GenerationRequest`, `GenerationResponse`) used by the validation,
continuation, merge and gateway code.  `Provider.other` models the
untyped runtime value reaching the `default` switch branch.  The optional
screenshot is modelled by its presence flag (`!!request.image` is the only
way `buildSystemPrompt` consumes it) and the progress callback, a side
effect, is not modelled. -/

inductive Provider where
  | gemini
  | openai
  | claude
  | other (tag : Str)
deriving DecidableEq

inductive ProjectType where
  | singlePage
  | multiPage
deriving DecidableEq

structure AIModel where
  id : Str
  name : Str
  provider : Provider
  maxTokens : Nat
  supportsVision : Bool

structure GenerationRequest where
  prompt : Str
  model : AIModel
  hasImage : Bool
  projectType : ProjectType

structure GenerationResponse where
  success : Bool
  files : List GFile
  pages : Option (List Str)
  error : Option Str

/-! ### Completion Checker (`AIService.validateSinglePageContent`)

Embeds lines 784-831.  The detection patterns are kept as the literal
strings the source stores; `sectionPatTest` interprets them under
`new RegExp(pattern, "i").test`: every character is literal except the
`.*` occurrences, which match any run of non-newline characters (no `s`
flag).  These are the only metacharacters appearing in the table. -/

/-- Split a pattern string at its `.*` occurrences. -/
def splitDotStar (acc : Str) : Str → List Str
  | [] => [acc.reverse]
  | '.' :: '*' :: rest => acc.reverse :: splitDotStar [] rest
  | c :: rest => splitDotStar (c :: acc) rest

/-- Do the segments occur in order, each gap free of newlines, with the
first segment at some position `≥ anchor` whose gap from `anchor` is also
newline-free? -/
def segsMatchFrom (s : Str) : List Str → Nat → Bool
  | [], _ => true
  | seg :: rest, anchor =>
      (List.range (s.length + 1)).any (fun q =>
        anchor ≤ q && occursAtB seg s q &&
        ((s.drop anchor).take (q - anchor)).all (fun c => c ≠ '\n') &&
        segsMatchFrom s rest (q + seg.length))

/-- `new RegExp(pattern, "i").test(content)` for the section patterns. -/
def sectionPatTest (pattern : String) (content : Str) : Bool :=
  let p := lowerStr (str pattern)
  let c := lowerStr content
  match splitDotStar [] p with
  | [] => true
  | s1 :: rest =>
      (List.range (c.length + 1)).any (fun p0 =>
        occursAtB s1 c p0 && segsMatchFrom c rest (p0 + s1.length))

/-- The Section Requirement Table (lines 792-802), verbatim. -/
def requiredSections : List (String × List String) :=
  [("header", ["<header", "id=\"header\"", "class=\".*header"]),
   ("hero", ["id=\"hero\"", "hero", "class=\".*hero"]),
   ("about", ["id=\"about\"", "about", "class=\".*about"]),
   ("services", ["id=\"services\"", "id=\"features\"", "services", "features"]),
   ("testimonials", ["id=\"testimonials\"", "testimonial", "class=\".*testimonial"]),
   ("portfolio", ["id=\"portfolio\"", "id=\"gallery\"", "portfolio", "gallery",
                  "class=\".*portfolio", "class=\".*gallery"]),
   ("stats", ["id=\"stats\"", "id=\"achievements\"", "stats", "achievements", "counter"]),
   ("contact", ["id=\"contact\"", "contact", "class=\".*contact"]),
   ("footer", ["<footer", "id=\"footer\"", "class=\".*footer"])]

structure ValidationResult where
  isComplete : Bool
  missingSections : List Str
  lastSection : Str

/-- Placeholder file used for the modelled `files[0]` access (guarded by
the emptiness check, exactly as in the source). -/
def defaultGFile : GFile := GFile.mk [] [] []

/-- One step of the section scan: a matched section becomes the last
found one, an unmatched section is appended to the missing list. -/
def sectionScanStep (htmlContent : Str) (acc : List Str × Str)
    (sec : String × List String) : List Str × Str :=
  if sec.2.any (fun pat => sectionPatTest pat htmlContent) then
    (acc.1, str sec.1)
  else
    (acc.1 ++ [str sec.1], acc.2)

/-- `AIService.validateSinglePageContent`. -/
def validateSinglePageContent (response : GenerationResponse) : ValidationResult :=
  if !response.success || response.files.isEmpty then
    { isComplete := false, missingSections := [str "all"], lastSection := str "none" }
  else
    let htmlContent := (response.files.headD defaultGFile).content
    let scan := requiredSections.foldl (sectionScanStep htmlContent) ([], str "header")
    let hasClosingHtml := containsSubCI (str "</html>") htmlContent
    let hasClosingBody := containsSubCI (str "</body>") htmlContent
    { isComplete := scan.1.isEmpty && hasClosingHtml && hasClosingBody
      missingSections := scan.1
      lastSection := scan.2 }

/-! ### Continuation merge (`AIService.mergeContent`, lines 923-974) -/

/-- Remove the first (case-insensitive) match of `tagStart[^>]*>`: the
literal opener followed by everything up to the next `>`.  If the first
occurrence of the opener has no later `>`, no later occurrence has one
either, so the regex fails entirely and the string is unchanged. -/
def removeFirstTagOpen (tagStart : String) (s : Str) : Str :=
  match findSubCI (str tagStart) s with
  | none => s
  | some i =>
      match findIdxB (fun j => i + (str tagStart).length ≤ j && s.getD j ' ' = '>') s.length with
      | some j => s.take i ++ s.drop (j + 1)
      | none => s

/-- Remove the first match of `<head[^>]*>[\s\S]*?<\/head>`.  The lazy
star stops at the earliest `</head>`; if the leftmost `<head` opener has
no complete match, no later one has (`>` and `</head>` are searched in
ever-smaller suffixes), so first-occurrence processing is faithful. -/
def removeHeadBlock (s : Str) : Str :=
  match findSubCI (str "<head") s with
  | none => s
  | some i =>
      match findIdxB (fun j => i + 5 ≤ j && s.getD j ' ' = '>') s.length with
      | none => s
      | some j =>
          match findSubCI (str "</head>") (s.drop (j + 1)) with
          | none => s
          | some k => s.take i ++ s.drop (j + 1 + k + 7)

/-- The wrapper-stripping chain applied to the continuation text
(doctype, `<html>`, the whole head block, `<body>`, `<main>` openers,
then `trim`). -/
def cleanContinuationOf (continuationContent : Str) : Str :=
  jsTrim
    (removeFirstTagOpen "<main"
      (removeFirstTagOpen "<body"
        (removeHeadBlock
          (removeFirstTagOpen "<html"
            (removeFirstTagOpen "<!DOCTYPE" continuationContent)))))

/-- The insertion point: the patterns `</main>`, `</body>`, `</html>`,
`$` searched in that preference order (`$` always matches, at the end). -/
def insertionIdx (existingContent : Str) : Nat :=
  match findSubCI (str "</main>") existingContent with
  | some i => i
  | none =>
      match findSubCI (str "</body>") existingContent with
      | some i => i
      | none =>
          match findSubCI (str "</html>") existingContent with
          | some i => i
          | none => existingContent.length

/-- `AIService.mergeContent`.  The `lastSection` parameter is unused by
the source body and kept for shape. -/
def mergeContent (existingResponse continuationResponse : GenerationResponse)
    (_lastSection : Str) : GenerationResponse :=
  match existingResponse.files, continuationResponse.files with
  | ef :: _, cf :: _ =>
      let existingContent := ef.content
      let cleanContinuation := cleanContinuationOf cf.content
      let ip := insertionIdx existingContent
      let mergedContent :=
        existingContent.take ip ++ str "\n\n" ++ cleanContinuation ++ str "\n\n"
          ++ existingContent.drop ip
      { existingResponse with files := [{ ef with content := mergedContent }] }
  | _, _ => existingResponse

/-! ### Continuation loop (`AIService.ensureCompleteGeneration`,
lines 734-782)

The network call issued for each continuation attempt
(`generateWithGemini` on the continuation prompt) is modelled by the
oracle `generate`, indexed by the attempt number; an `Except.error`
models a thrown error (caught by the source, which breaks).  The loop is
returned together with the number of oracle calls it made. -/

def ensureCompleteLoop (generate : Nat → Except Str GenerationResponse) :
    Nat → Nat → GenerationResponse → GenerationResponse × Nat
  | 0, used, currentResponse => (currentResponse, used)
  | remaining + 1, used, currentResponse =>
      let validation := validateSinglePageContent currentResponse
      if validation.isComplete then (currentResponse, used)
      else
        match generate used with
        | Except.error _ => (currentResponse, used + 1)
        | Except.ok continuationResponse =>
            if continuationResponse.success && !continuationResponse.files.isEmpty then
              ensureCompleteLoop generate remaining (used + 1)
                (mergeContent currentResponse continuationResponse validation.lastSection)
            else (currentResponse, used + 1)

/-- `ensureCompleteGeneration`: at most `maxRetries = 3` iterations. -/
def ensureCompleteGeneration (generate : Nat → Except Str GenerationResponse)
    (response : GenerationResponse) : GenerationResponse :=
  (ensureCompleteLoop generate 3 0 response).1

/-! ### Model Gateway retry loop (`AIService.generateWithGemini`,
lines 153-204)

The `fetch`/body-parsing pipeline of one attempt is modelled by the
oracle `upstream`: `httpOk (some t)` is a successful response whose first
candidate carries text `t`; `httpOk none` a successful response with no
text (the `No content generated from Gemini` throw); `httpErr` a
non-`ok` response with the message recovered from its body; `netErr` a
rejection thrown by `fetch` itself or by parsing the error body.  The
call log records the attempt count and the seconds slept before each
retry. -/

inductive UpstreamResult where
  | httpOk (text : Option Str)
  | httpErr (status : Nat) (message : Str)
  | netErr (message : Str)

structure GeminiCallLog where
  attempts : Nat
  delays : List Nat

/-- The message of the error thrown for a non-`ok` response. -/
def geminiErrMsg (status : Nat) (message : Str) : Str :=
  str "Gemini API error (" ++ natDigits status ++ str "): " ++ message

/-- The `for (let attempt = 1; attempt <= 3; attempt++)` body: a 503
before the third attempt sleeps `attempt * 2` seconds and continues; any
other failure is thrown, caught, and retried without delay until
`attempt === 3` rethrows it. -/
def geminiLoop (upstream : Nat → UpstreamResult) : Nat → Nat → GeminiCallLog × Except Str Str
  | 0, _ => ({ attempts := 0, delays := [] }, Except.error [])
  | fuel + 1, attempt =>
      match upstream attempt with
      | UpstreamResult.httpOk (some content) =>
          ({ attempts := 1, delays := [] }, Except.ok content)
      | UpstreamResult.httpOk none =>
          if attempt = 3 then
            ({ attempts := 1, delays := [] },
             Except.error (str "No content generated from Gemini"))
          else
            let next := geminiLoop upstream fuel (attempt + 1)
            ({ attempts := next.1.attempts + 1, delays := next.1.delays }, next.2)
      | UpstreamResult.httpErr status message =>
          if status = 503 && attempt < 3 then
            let next := geminiLoop upstream fuel (attempt + 1)
            ({ attempts := next.1.attempts + 1, delays := attempt * 2 :: next.1.delays }, next.2)
          else if attempt = 3 then
            ({ attempts := 1, delays := [] }, Except.error (geminiErrMsg status message))
          else
            let next := geminiLoop upstream fuel (attempt + 1)
            ({ attempts := next.1.attempts + 1, delays := next.1.delays }, next.2)
      | UpstreamResult.netErr message =>
          if attempt = 3 then
            ({ attempts := 1, delays := [] }, Except.error message)
          else
            let next := geminiLoop upstream fuel (attempt + 1)
            ({ attempts := next.1.attempts + 1, delays := next.1.delays }, next.2)

/-- `generateWithGemini`: run the retry loop; on textual success the
response is produced by `enhanceWithImages`, abstracted as `enhance`. -/
def generateWithGemini (upstream : Nat → UpstreamResult)
    (enhance : Str → GenerationResponse) : GeminiCallLog × Except Str GenerationResponse :=
  match geminiLoop upstream 3 1 with
  | (log, Except.ok content) => (log, Except.ok (enhance content))
  | (log, Except.error e) => (log, Except.error e)

/-! ### Public entry point (`AIService.generateWebsite`, lines 87-123) -/

/-- The environment of one `generateWebsite` call: credential lookup and
the network-dependent stages as oracles. -/
structure PipelineEnv where
  apiKey : Provider → Option Str
  upstream : Nat → UpstreamResult
  enhance : Str → GenerationResponse
  contGen : Nat → Except Str GenerationResponse

/-- Provider tag as interpolated into error messages. -/
def providerTag : Provider → Str
  | Provider.gemini => str "gemini"
  | Provider.openai => str "openai"
  | Provider.claude => str "claude"
  | Provider.other tag => tag

/-- The `try` body of `generateWebsite`: key lookup, provider dispatch,
then the single-page completion pass. -/
def generateWebsiteInner (env : PipelineEnv) (request : GenerationRequest) :
    Except Str GenerationResponse :=
  match env.apiKey request.model.provider with
  | none => Except.error (str "API key not found for " ++ providerTag request.model.provider)
  | some _ =>
      match request.model.provider with
      | Provider.gemini =>
          match generateWithGemini env.upstream env.enhance with
          | (_, Except.error e) => Except.error e
          | (_, Except.ok response) =>
              if response.success && decide (request.projectType = ProjectType.singlePage) then
                Except.ok (ensureCompleteGeneration env.contGen response)
              else Except.ok response
      | Provider.openai => Except.error (str "OpenAI integration coming soon")
      | Provider.claude => Except.error (str "Claude integration coming soon")
      | Provider.other tag => Except.error (str "Unsupported provider: " ++ tag)

/-- `generateWebsite`: the surrounding `catch` turns any thrown error
into a failed `GenerationResponse` carrying the error's message. -/
def generateWebsite (env : PipelineEnv) (request : GenerationRequest) : GenerationResponse :=
  match generateWebsiteInner env request with
  | Except.ok response => response
  | Except.error msg =>
      { success := false, files := [], pages := none, error := some msg }

/-! ### Generation Request Builder (`AIService.buildSystemPrompt`)

The template literal of lines 220-380, split at its interpolation
points; every constant chunk below is the verbatim template text. -/

/-- Template text before the interpolated user prompt. -/
def sysPromptHead : Str :=
  str "You are an EXTRAORDINARY web designer creating MIND-BLOWING, UNIQUE websites that make competitors jealous and visitors say \"WOW!\"\n\n"

/-- The screenshot-analysis instruction block (emitted only when a screenshot is attached; the alternative is the empty string). -/
def sysPromptScrBlock : Str :=
  str "\nSCREENSHOT ANALYSIS INSTRUCTIONS:\n- Analyze every detail: layout, colors, typography, spacing, components\n- Recreate the exact visual design but make it 10x more impressive\n- Extract all text and enhance the design with modern effects\n- Identify interactive elements and add stunning animations\n"

/-- Template text between the screenshot slot and the first multi/single choice. -/
def sysPromptSeg2 : Str :=
  str "\n\nCRITICAL REQUIREMENTS:\n1. Generate "

/-- Requirement 1, multi-page wording. -/
def sysPromptGenMulti : Str :=
  str "MULTIPLE HTML pages with navigation between them"

/-- Requirement 1, single-page wording. -/
def sysPromptGenSingle : Str :=
  str "ONE COMPLETE SINGLE-PAGE website with ALL sections"

/-- Template text between requirements 1 and 6. -/
def sysPromptSeg3 : Str :=
  str "\n2. Use ONLY INLINE TAILWIND CSS - no separate CSS files\n3. Include Tailwind CSS CDN: <script src=\"https://cdn.tailwindcss.com\"></script>\n4. Embed JavaScript directly in HTML using <script> tags\n5. Use relevant Unsplash images with proper URLs\n6. "

/-- Requirement 6, multi-page wording. -/
def sysPromptReq6Multi : Str :=
  str "Each page must be complete"

/-- Requirement 6, single-page wording. -/
def sysPromptReq6Single : Str :=
  str "The single page MUST include ALL sections - do not cut off early!"

/-- Template text up to the extra multi-page file entries. -/
def sysPromptSeg4 : Str :=
  str "\n\nOUTPUT FORMAT (MANDATORY):\nReturn only valid JSON in this exact format:\n\x7b\n  \"files\": [\n    \x7b\n      \"path\": \"index.html\",\n      \"content\": \"Complete HTML with inline Tailwind - MUST include ALL sections\"\n    \x7d"

/-- The extra example file entries emitted in multi-page mode (empty string otherwise). -/
def sysPromptFilesMulti : Str :=
  str ",\n    \x7b\n      \"path\": \"about.html\", \n      \"content\": \"Complete HTML with inline Tailwind\"\n    \x7d,\n    \x7b\n      \"path\": \"services.html\",\n      \"content\": \"Complete HTML with inline Tailwind\"  \n    \x7d,\n    \x7b\n      \"path\": \"contact.html\",\n      \"content\": \"Complete HTML with inline Tailwind\"\n    \x7d"

/-- Template text between the file entries and the structure block. -/
def sysPromptSeg5 : Str :=
  str "\n  ]\n\x7d\n\nDESIGN REQUIREMENTS - MAKE IT ABSOLUTELY STUNNING:\n- UNIQUE, CREATIVE layouts that stand out from competitors\n- ADVANCED Tailwind CSS techniques: gradients, shadows, transforms, animations\n- IMPRESSIVE visual effects: parallax, morphing elements, dynamic backgrounds\n- MODERN glass-morphism, neumorphism, or cutting-edge design trends\n- SMOOTH animations using Tailwind's animate classes and custom CSS animations\n- INTERACTIVE elements with hover effects, transitions, and micro-interactions\n- BEAUTIFUL color combinations with gradients and transparency\n- CREATIVE use of spacing, typography, and visual hierarchy\n- UNIQUE navigation patterns and layouts\n- EYE-CATCHING hero sections with dynamic elements\n- INNOVATIVE card designs and section layouts\n- RESPONSIVE design that looks amazing on all devices\n\nUNSPLASH IMAGE INTEGRATION:\n- Use specific, relevant Unsplash image URLs\n- Choose images that perfectly match the content context and positioning\n- Use high-quality, professional images that enhance the design\n- Format: https://images.unsplash.com/photo-[id]?w=1200&h=800&fit=crop\n\n"

/-- The multi-page structure block. -/
def sysPromptStructMulti : Str :=
  str "MULTI-PAGE STRUCTURE:\nCreate 4-6 stunning HTML pages with consistent navigation:\n\n1. INDEX.HTML (Homepage):\n   - Hero section with dynamic animations and parallax effects\n   - Company overview with stunning visuals\n   - Featured services/products showcase\n   - Latest news/updates section\n   - Multiple call-to-action sections\n\n2. ABOUT.HTML:\n   - Company story with animated timeline\n   - Team members with interactive hover cards\n   - Mission, vision, values sections\n   - Company achievements and awards showcase\n\n3. SERVICES.HTML (or PRODUCTS.HTML):\n   - Service/product grid with stunning hover effects\n   - Detailed descriptions with modal popups\n   - Animated pricing tables\n   - Case studies and portfolio examples\n\n4. CONTACT.HTML:\n   - Interactive contact form with validation\n   - Office locations with embedded maps\n   - Team contact information cards\n   - Social media integration and links"

/-- The single-page structure block with the ordered section checklist. -/
def sysPromptStructSingle : Str :=
  str "SINGLE-PAGE STRUCTURE (ALL SECTIONS REQUIRED - NO EXCEPTIONS):\nCreate ONE COMPLETE HTML page with ALL these sections in order:\n\n1. HEADER/NAVIGATION (Fixed with smooth scroll):\n   - Logo and branding\n   - Navigation menu with smooth scroll links\n   - Mobile responsive hamburger menu\n   - Call-to-action button in header\n\n2. HERO SECTION (Eye-catching and dynamic):\n   - Stunning animated background\n   - Compelling headline and subtext\n   - Multiple call-to-action buttons\n   - Visual elements and animations\n\n3. ABOUT/COMPANY SECTION (Story and mission):\n   - Company overview and story\n   - Mission, vision, values\n   - Key differentiators\n   - Visual elements and animations\n\n4. SERVICES/FEATURES SECTION (Core offerings):\n   - Grid of services/features with icons\n   - Hover effects and animations\n   - Detailed descriptions\n   - Pricing or packages if applicable\n\n5. TESTIMONIALS/REVIEWS SECTION (Social proof):\n   - Customer testimonials with photos\n   - Star ratings and quotes\n   - Multiple testimonials in grid or carousel\n\n6. PORTFOLIO/GALLERY SECTION (Showcase work):\n   - Gallery of work/products/achievements\n   - Image grid with hover effects\n   - Case studies or examples\n\n7. STATS/ACHIEVEMENTS SECTION (Credibility):\n   - Animated counter numbers\n   - Key metrics and achievements\n   - Visual progress indicators\n\n8. CONTACT SECTION (Lead generation):\n   - Contact form with validation\n   - Contact information and details\n   - Map or location info\n   - Social media links\n\n9. FOOTER (Complete site links):\n   - Company information\n   - Quick navigation links\n   - Legal pages links\n   - Copyright and social media\n\nCRITICAL: You MUST include ALL 9 sections above. Do not stop early or skip sections!"

/-- Template text after the structure block. -/
def sysPromptTail : Str :=
  str "\n\nTAILWIND CSS REQUIREMENTS:\n- Use advanced Tailwind classes: backdrop-blur, bg-gradient-to-*, transform, transition-all\n- Implement responsive design with sm:, md:, lg:, xl: prefixes\n- Use Tailwind's animation classes: animate-pulse, animate-bounce, animate-fade-in\n- Create custom animations with CSS when needed\n- Use proper color palettes and semantic naming\n\nGENERATION RULES:\n- Generate the COMPLETE page in one response\n- If approaching token limits, prioritize essential content but include ALL sections\n- Use concise but impactful copy\n- Focus on visual impact over verbose descriptions\n- Ensure proper HTML structure with DOCTYPE, head, and body tags\n- Include proper meta tags for SEO\n\nNever include any explanations, comments, or text outside the JSON. Only return the valid JSON with the HTML files containing inline Tailwind CSS and embedded JavaScript."

/-- `AIService.buildSystemPrompt` (lines 216-381): the template literal
re-assembled from its constant chunks and the three interpolation points
(`request.prompt`, the screenshot conditional, the multi/single-page
conditionals). -/
def buildSystemPrompt (request : GenerationRequest) : Str :=
  let isScreenshot := request.hasImage
  let isMultiPage := decide (request.projectType = ProjectType.multiPage)
  sysPromptHead ++ request.prompt ++ str "\n\n"
    ++ (if isScreenshot then sysPromptScrBlock else [])
    ++ sysPromptSeg2
    ++ (if isMultiPage then sysPromptGenMulti else sysPromptGenSingle)
    ++ sysPromptSeg3
    ++ (if isMultiPage then sysPromptReq6Multi else sysPromptReq6Single)
    ++ sysPromptSeg4
    ++ (if isMultiPage then sysPromptFilesMulti else [])
    ++ sysPromptSeg5
    ++ (if isMultiPage then sysPromptStructMulti else sysPromptStructSingle)
    ++ sysPromptTail

/-! ### Image Placeholder Resolver (`enhanceWithImages`)

Embeds the revision kept in `src/unnamed/part_000` lines 371-448 (the
same code appears in `src/script.js` lines 4-84): collect the
`[IMAGE:<section><digits>]` markers of every markup file, group them by
base section (trailing digits stripped), deduplicate variants in
collection order, and substitute each variant with an image element,
cycling through the fetched candidates by `index % images.length`.  The
awaited `UnsplashService.getContextualImages` call is modelled by the
oracle `imageMap` from base sections to their fetched candidate lists (a
missing key and an empty result coincide: both skip the section). -/

structure UnsplashImage where
  id : Str
  urlRegular : Str
  altDescription : Str
  description : Str
  userName : Str

/-- Placeholder image record (the JS index access is always in bounds
thanks to the modulus; Lean's `getD` needs a default). -/
def defaultImage : UnsplashImage := UnsplashImage.mk [] [] [] [] []

/-- `UnsplashService.getImageMarkup` (`src/unnamed/part_001` lines
286-295), the template reproduced byte for byte; `||` falls through empty
(falsy) alternatives. -/
def getImageMarkup (image : UnsplashImage) (alt : Str) (className : Str) : Str :=
  str "<img \n      src=\"" ++ image.urlRegular
    ++ str "\" \n      alt=\""
    ++ (if !alt.isEmpty then alt
        else if !image.altDescription.isEmpty then image.altDescription
        else if !image.description.isEmpty then image.description
        else str "Image")
    ++ str "\"\n      class=\"" ++ className
    ++ str "\"\n      loading=\"lazy\"\n      data-unsplash-id=\"" ++ image.id
    ++ str "\"\n      data-photographer=\"" ++ image.userName
    ++ str "\"\n    />"

/-- The placeholder marker for a section-variant name. -/
def imageMarker (v : Str) : Str := str "[IMAGE:" ++ v ++ str "]"

/-- `content.match(/\[IMAGE:(\w+\d*)\]/g)` followed by the strip of
`[IMAGE:` and `]` from each match: the variant names in match order.
`\w+\d*` amounts to one maximal nonempty word run (digits are word
characters), which must be followed by `]`. -/
def scanMarkers : Nat → Str → List Str
  | 0, _ => []
  | fuel + 1, s =>
      match litConsume "[IMAGE:" s with
      | some s1 =>
          let w := s1.takeWhile wordChar
          if !w.isEmpty && (s1.drop w.length).head? = some ']' then
            w :: scanMarkers fuel (s1.drop (w.length + 1))
          else
            match s with
            | [] => []
            | _ :: t => scanMarkers fuel t
      | none =>
          match s with
          | [] => []
          | _ :: t => scanMarkers fuel t

/-- `fullSection.replace(/\d+$/, '')`: the base section name. -/
def stripTrailingDigits (v : Str) : Str :=
  (v.reverse.dropWhile Char.isDigit).reverse

/-- Record one variant under its base section, preserving first-insertion
order of bases and of variants, skipping duplicates (the
`includes` guard). -/
def addVariant : List (Str × List Str) → Str → Str → List (Str × List Str)
  | [], base, v => [(base, [v])]
  | (b, vs) :: rest, base, v =>
      if b = base then
        (b, if vs.contains v then vs else vs ++ [v]) :: rest
      else
        (b, vs) :: addVariant rest base v

/-- The `sectionsMap` accumulated over the markup files. -/
def buildSectionsMap (files : List GFile) : List (Str × List Str) :=
  files.foldl (fun m f =>
    if f.ftype = str "html" then
      (scanMarkers (f.content.length + 1) f.content).foldl
        (fun m v => addVariant m (stripTrailingDigits v) v) m
    else m) []

/-- The CSS classes the resolver passes for every substitution. -/
def variantClasses : Str := str "w-full h-auto object-cover"

/-- The `variants.forEach((variant, index) => ...)` loop: substitute the
first occurrence of each variant's marker with the image element built
from the candidate at `index % images.length`. -/
def applyVariants (images : List UnsplashImage) : List Str → Nat → Str → Str
  | [], _, content => content
  | variant :: rest, index, content =>
      let imageIndex := index % images.length
      let image := images.getD imageIndex defaultImage
      let imageHtml := getImageMarkup image (variant ++ str " image") variantClasses
      applyVariants images rest (index + 1)
        (jsReplaceFirst content (imageMarker variant) imageHtml)

/-- The `Object.entries(sectionsMap).forEach` loop over one file's
content: sections whose fetch returned no candidates are skipped. -/
def applySections (imageMap : Str → List UnsplashImage)
    (sectionsMap : List (Str × List Str)) (content : Str) : Str :=
  sectionsMap.foldl (fun content entry =>
    let images := imageMap entry.1
    if !images.isEmpty then applyVariants images entry.2 0 content else content) content

/-- The file-level body of `enhanceWithImages` after a successful parse:
markup files get their markers substituted, other files pass through;
with no markers at all the fetch is skipped entirely. -/
def enhanceWithImagesFiles (imageMap : Str → List UnsplashImage)
    (files : List GFile) : List GFile :=
  let sectionsMap := buildSectionsMap files
  if sectionsMap.isEmpty then files
  else
    files.map (fun f =>
      if f.ftype = str "html" then
        { f with content := applySections imageMap sectionsMap f.content }
      else f)

/-- The replacement text the resolver would substitute for variant `v`,
as determined by the sections map and the fetched candidates: `none` when
`v` is unknown or its base section has no candidate images. -/
def assignedMarkup (imageMap : Str → List UnsplashImage)
    (sectionsMap : List (Str × List Str)) (v : Str) : Option Str :=
  match sectionsMap.find? (fun e => e.2.contains v) with
  | none => none
  | some e =>
      let images := imageMap e.1
      if images.isEmpty then none
      else
        some (getImageMarkup (images.getD (e.2.indexOf v % images.length) defaultImage)
          (v ++ str " image") variantClasses)

/-! ### Occurrence toolkit

Helper notions and lemmas about substring occurrences, shared by the
theorems below.  `hasSub` is a recursion-friendly containment check,
equivalent to `containsSub`. -/

/-- Containment by walking suffixes (equivalent to `containsSub`). -/
def hasSub (pat : Str) : Str → Bool
  | [] => pat.isEmpty
  | s@(_ :: t) => pat.isPrefixOf s || hasSub pat t

/-- Occurrence count over all start positions (overlaps counted). -/
def occCount (pat : Str) : Str → Nat
  | [] => if pat.isEmpty then 1 else 0
  | s@(_ :: t) => (if pat.isPrefixOf s then 1 else 0) + occCount pat t

theorem occursAtB_true_iff {pat s : Str} {i : Nat} :
    occursAtB pat s i = true ↔ pat <+: s.drop i := by
  simp [occursAtB, List.isPrefixOf_iff_prefix]

theorem occursAtB_of_append (pre pat rest : Str) :
    occursAtB pat (pre ++ pat ++ rest) pre.length = true := by
  rw [occursAtB_true_iff]
  rw [List.append_assoc, List.drop_append_eq_append_drop]
  simp [List.prefix_append]

theorem hasSub_of_occursAtB {pat s : Str} {i : Nat}
    (h : occursAtB pat s i = true) : hasSub pat s = true := by
  induction s generalizing i with
  | nil =>
      rw [occursAtB_true_iff] at h
      simp at h
    
      simp [hasSub, h, List.isEmpty_iff]
  | cons c t ih =>
      cases i with
      | zero =>
          rw [occursAtB_true_iff] at h
          simp only [List.drop_zero] at h
          simp [hasSub, List.isPrefixOf_iff_prefix, h]
      | succ j =>
          have : occursAtB pat t j = true := by
            rw [occursAtB_true_iff] at h ⊢
            simpa [List.drop_succ_cons] using h
          simp [hasSub, ih this]

theorem occursAtB_exists_of_hasSub {pat s : Str}
    (h : hasSub pat s = true) : ∃ i, occursAtB pat s i = true := by
  induction s with
  | nil =>
      refine ⟨0, ?_⟩
      simp [hasSub, List.isEmpty_iff] at h
      simp [occursAtB, h, List.isPrefixOf_iff_prefix]
  | cons c t ih =>
      simp only [hasSub, Bool.or_eq_true] at h
      rcases h with h | h
      · exact ⟨0, by simpa [occursAtB] using h⟩
      · rcases ih h with ⟨j, hj⟩
        refine ⟨j + 1, ?_⟩
        rw [occursAtB_true_iff] at hj ⊢
        simpa [List.drop_succ_cons] using hj

theorem occursAtB_false_of_not_hasSub {pat s : Str}
    (h : hasSub pat s = false) (i : Nat) : occursAtB pat s i = false := by
  by_contra hc
  rw [Bool.not_eq_false] at hc
  have := hasSub_of_occursAtB hc
  rw [h] at this
  exact Bool.false_ne_true this

theorem findSub_isSome_of_occursAtB {pat s : Str} {i : Nat}
    (h : occursAtB pat s i = true) : (findSub pat s).isSome = true := by
  obtain ⟨j, hj, hjle⟩ : ∃ j, occursAtB pat s j = true ∧ j ≤ s.length := by
    by_cases hle : i ≤ s.length
    · exact ⟨i, h, hle⟩
    · refine ⟨0, ?_, Nat.zero_le _⟩
      rw [occursAtB_true_iff] at h
      rw [List.drop_eq_nil_of_le (le_of_not_le hle)] at h
      have h0 : pat = [] := List.prefix_nil.mp h
      subst h0
      simp [occursAtB, List.isPrefixOf_iff_prefix]
  have scan : ∀ fuel start, start ≤ j → j < start + fuel →
      (findIdxFrom (occursAtB pat s) fuel start).isSome = true := by
    intro fuel
    induction fuel with
    | zero => intro start h1 h2; omega
    | succ n ih =>
        intro start h1 h2
        simp only [findIdxFrom]
        by_cases hs : occursAtB pat s start = true
        · simp [hs]
        · rw [if_neg hs]
          rcases Nat.eq_or_lt_of_le h1 with he | hlt
          · exact absurd hj (he ▸ hs)
          · exact ih (start + 1) hlt (by omega)
  exact scan (s.length + 1) 0 (Nat.zero_le _) (by omega)

theorem findIdxFrom_eq_some {p : Nat → Bool} {fuel start j : Nat}
    (h : findIdxFrom p fuel start = some j) :
    p j = true ∧ start ≤ j ∧ ∀ k, start ≤ k → k < j → p k = false := by
  induction fuel generalizing start with
  | zero => simp [findIdxFrom] at h
  | succ n ih =>
      simp only [findIdxFrom] at h
      by_cases hs : p start = true
      · rw [if_pos hs] at h
        obtain rfl : start = j := Option.some.inj h
        exact ⟨hs, le_refl _, fun k h1 h2 => absurd h1 (by omega)⟩
      · rw [if_neg hs] at h
        obtain ⟨hp, hle, hmin⟩ := ih h
        refine ⟨hp, by omega, fun k h1 h2 => ?_⟩
        rcases Nat.eq_or_lt_of_le h1 with he | hlt
        · rw [← he]; exact Bool.not_eq_true _ |>.mp hs
        · exact hmin k hlt h2

theorem findSub_eq_some {pat s : Str} {j : Nat} (h : findSub pat s = some j) :
    occursAtB pat s j = true ∧ ∀ k, k < j → occursAtB pat s k = false := by
  obtain ⟨hp, _, hmin⟩ := findIdxFrom_eq_some h
  exact ⟨hp, fun k hk => hmin k (Nat.zero_le _) hk⟩

theorem findSub_eq_some_of_min {pat s : Str} {j : Nat}
    (hocc : occursAtB pat s j = true)
    (hmin : ∀ k, k < j → occursAtB pat s k = false) : findSub pat s = some j := by
  have hsome := findSub_isSome_of_occursAtB hocc
  obtain ⟨j', hj'⟩ := Option.isSome_iff_exists.mp hsome
  obtain ⟨hocc', hmin'⟩ := findSub_eq_some hj'
  have : j' = j := by
    rcases Nat.lt_trichotomy j' j with hlt | he | hgt
    · exact absurd hocc' (by simp [hmin _ hlt])
    · exact he
    · exact absurd hocc (by simp [hmin' _ hgt])
  rw [hj', this]

/-- Character extraction from an occurrence. -/
theorem occursAtB_getD {pat s : Str} {i : Nat} (h : occursAtB pat s i = true)
    {k : Nat} (hk : k < pat.length) (d : Char) :
    s.getD (i + k) d = pat.getD k d := by
  rw [occursAtB_true_iff] at h
  obtain ⟨t, ht⟩ := h
  have hdrop : s.getD (i + k) d = (s.drop i).getD k d := by
    rw [List.getD_eq_getElem?_getD, List.getD_eq_getElem?_getD, List.getElem?_drop]
  rw [hdrop, ← ht, List.getD_eq_getElem?_getD, List.getD_eq_getElem?_getD,
    List.getElem?_append]
  rw [if_pos hk]

theorem getD_mem {l : Str} {k : Nat} (hk : k < l.length) (d : Char) :
    l.getD k d ∈ l := by
  rw [List.getD_eq_getElem?_getD, List.getElem?_eq_getElem hk]
  exact List.getElem_mem _

/-- The getD of an append, left side. -/
theorem getD_append_left {a b : Str} {k : Nat} (hk : k < a.length) (d : Char) :
    (a ++ b).getD k d = a.getD k d := by
  rw [List.getD_eq_getElem?_getD, List.getD_eq_getElem?_getD, List.getElem?_append, if_pos hk]

/-- The getD of an append, right side. -/
theorem getD_append_right {a b : Str} {k : Nat} (hk : a.length ≤ k) (d : Char) :
    (a ++ b).getD k d = b.getD (k - a.length) d := by
  rw [List.getD_eq_getElem?_getD, List.getD_eq_getElem?_getD, List.getElem?_append,
    if_neg (by omega)]

/-- A prefix test against a long-enough left part ignores the right part. -/
theorem isPrefixOf_append_of_le {pat l b : Str} (h : pat.length ≤ l.length) :
    pat.isPrefixOf (l ++ b) = pat.isPrefixOf l := by
  by_cases hp : pat.isPrefixOf l = true
  · rw [hp]
    rw [List.isPrefixOf_iff_prefix] at hp ⊢
    exact hp.trans (List.prefix_append l b)
  · rw [Bool.not_eq_true] at hp
    rw [hp]
    by_contra hc
    rw [Bool.not_eq_false, List.isPrefixOf_iff_prefix, List.prefix_iff_eq_take] at hc
    rw [List.take_append_eq_append_take, Nat.sub_eq_zero_of_le h, List.take_zero,
      List.append_nil] at hc
    have : pat.isPrefixOf l = true := by
      rw [List.isPrefixOf_iff_prefix, List.prefix_iff_eq_take]
      exact hc
    rw [hp] at this
    exact Bool.false_ne_true this

/-- An occurrence splits the string at its position. -/
theorem eq_take_append_drop_of_occursAtB {pat s : Str} {i : Nat}
    (h : occursAtB pat s i = true) :
    s = s.take i ++ pat ++ s.drop (i + pat.length) := by
  rw [occursAtB_true_iff, List.prefix_iff_eq_take] at h
  conv_lhs => rw [← List.take_append_drop i s]
  rw [List.append_assoc]
  congr 1
  conv_lhs => rw [← List.take_append_drop pat.length (s.drop i)]
  rw [← h, List.drop_drop]

/-- With no `$` in the replacement, `GetSubstitution` is the identity. -/
theorem dollarSub_id {rep : Str} (h : ∀ c ∈ rep, c ≠ '$') (m b a : Str) :
    dollarSub m b a rep = rep := by
  induction rep with
  | nil => rfl
  | cons c t ih =>
      have hc : c ≠ '$' := h c (List.mem_cons_self _ _)
      have ht : ∀ x ∈ t, x ≠ '$' := fun x hx => h x (List.mem_cons_of_mem _ hx)
      rw [dollarSub.eq_def]
      simp only
      rw [if_neg hc, ih ht]

/-- `jsReplaceFirst` on a dollar-free replacement is a plain splice. -/
theorem jsReplaceFirst_splice {s pat rep : Str} {i : Nat}
    (hfind : findSub pat s = some i) (hrep : ∀ c ∈ rep, c ≠ '$') :
    jsReplaceFirst s pat rep = s.take i ++ rep ++ s.drop (i + pat.length) := by
  simp only [jsReplaceFirst, hfind, dollarSub_id hrep]

/-- When the pattern is missing, `jsReplaceFirst` is the identity. -/
theorem jsReplaceFirst_of_not_found {s pat rep : Str}
    (h : findSub pat s = none) : jsReplaceFirst s pat rep = s := by
  simp [jsReplaceFirst, h]

/-- take of the left part of an append. -/
theorem take_append_self {a b : Str} : (a ++ b).take a.length = a := by
  rw [List.take_append_eq_append_take, List.take_length, Nat.sub_self, List.take_zero,
    List.append_nil]

/-- drop beyond the left part of an append. -/
theorem drop_append_self {a b : Str} {n : Nat} :
    (a ++ b).drop (a.length + n) = b.drop n := by
  rw [List.drop_append_eq_append_drop, List.drop_eq_nil_of_le (by omega), Nat.add_comm,
    Nat.add_sub_cancel, List.nil_append]

/-- Occurrence inside the right part of an append. -/
theorem occursAtB_append_shift {pat a b : Str} {j : Nat} :
    occursAtB pat (a ++ b) (a.length + j) = occursAtB pat b j := by
  unfold occursAtB
  rw [show (a ++ b).drop (a.length + j) = b.drop j from drop_append_self]

/-- The head of any occurrence of a bracket-headed pattern sitting before
the marked position would put `[` among the prefix characters; with a
bracket-free prefix the first occurrence is exactly the marked one. -/
theorem findSub_of_clean_head {pat pre rest : Str}
    (hhead : pat.head? = some '[') (hpre : ∀ c ∈ pre, c ≠ '[') :
    findSub pat (pre ++ pat ++ rest) = some pre.length := by
  refine findSub_eq_some_of_min (occursAtB_of_append pre pat rest) ?_
  intro k hk
  by_contra hc
  rw [Bool.not_eq_false] at hc
  have hlen : 0 < pat.length := by
    cases pat with
    | nil => simp at hhead
    | cons c t => simp
  have h0 : (pre ++ pat ++ rest).getD (k + 0) ' ' = pat.getD 0 ' ' := occursAtB_getD hc hlen ' '
  rw [Nat.add_zero] at h0
  have hget : (pre ++ pat ++ rest).getD k ' ' = pre.getD k ' ' := by
    rw [List.append_assoc]
    exact getD_append_left hk ' '
  have hpat0 : pat.getD 0 ' ' = '[' := by
    cases pat with
    | nil => simp at hhead
    | cons c t =>
        simp only [List.head?_cons, Option.some.injEq] at hhead
        simp [List.getD, hhead]
  have : pre.getD k ' ' = '[' := by rw [← hget, h0, hpat0]
  exact hpre _ (getD_mem hk ' ') this

/-- Splitting containment over an append when no occurrence can start
strictly inside the left part and straddle into the right part. -/
theorem hasSub_append_eq {pat a b : Str} (hp : pat ≠ [])
    (h : ∀ s : Str, s <:+ a → s.length < pat.length → s ≠ [] →
      pat.isPrefixOf (s ++ b) = false) :
    hasSub pat (a ++ b) = (hasSub pat a || hasSub pat b) := by
  induction a with
  | nil => simp [hasSub, List.isEmpty_iff, hp]
  | cons c t ih =>
      have hsuf : ∀ s : Str, s <:+ t → s.length < pat.length → s ≠ [] →
          pat.isPrefixOf (s ++ b) = false := by
        intro s h1 h2 h3
        exact h s (h1.trans (List.suffix_cons c t)) h2 h3
      show (pat.isPrefixOf (c :: t ++ b) || hasSub pat (t ++ b)) =
        ((pat.isPrefixOf (c :: t) || hasSub pat t) || hasSub pat b)
      rw [ih hsuf]
      by_cases hl : pat.length ≤ (c :: t).length
      · rw [show ((c :: t) ++ b) = (c :: t) ++ b from rfl, isPrefixOf_append_of_le hl]
        rw [Bool.or_assoc]
      · push_neg at hl
        have h1 : pat.isPrefixOf (c :: t ++ b) = false :=
          h (c :: t) (List.suffix_refl _) hl (by simp)
        have h2 : pat.isPrefixOf (c :: t) = false := by
          by_contra hc
          rw [Bool.not_eq_false, List.isPrefixOf_iff_prefix] at hc
          have hll := hc.length_le
          omega
        rw [h1, h2]
        simp

/-- Prefixes agree with the larger list character-wise. -/
theorem prefix_getD {l₁ l₂ : Str} (h : l₁ <+: l₂) {k : Nat} (hk : k < l₁.length)
    (d : Char) : l₂.getD k d = l₁.getD k d := by
  have : occursAtB l₁ l₂ 0 = true := by
    rw [occursAtB_true_iff, List.drop_zero]; exact h
  simpa using occursAtB_getD this hk d

/-- No pattern occurrence can start inside a short left part when the
right part opens with a character foreign to the pattern. -/
theorem no_short_start_of_headb {pat b : Str} {c0 : Char} (hb : b.head? = some c0)
    (hc : c0 ∉ pat) :
    ∀ s : Str, s.length < pat.length → s ≠ [] → pat.isPrefixOf (s ++ b) = false := by
  intro s hlen _
  by_contra hc2
  rw [Bool.not_eq_false, List.isPrefixOf_iff_prefix] at hc2
  obtain ⟨bh, bt, rfl⟩ : ∃ bh bt, b = bh :: bt := by
    cases b with
    | nil => simp at hb
    | cons x y => exact ⟨x, y, rfl⟩
  have hb0 : bh = c0 := by simpa using hb
  have hchar : (s ++ bh :: bt).getD s.length ' ' = pat.getD s.length ' ' :=
    prefix_getD hc2 hlen ' '
  rw [getD_append_right (le_refl _) ' '] at hchar
  simp only [Nat.sub_self] at hchar
  have : pat.getD s.length ' ' ∈ pat := getD_mem hlen ' '
  rw [← hchar] at this
  simp only [List.getD, List.getD_cons_zero] at this
  rw [hb0] at this
  exact hc this

/-- No pattern occurrence can start at a nonempty suffix of `a` when no
character of `a` can begin the pattern. -/
theorem no_start_of_mem {pat a b : Str} (hp : pat ≠ [])
    (hh : ∀ c ∈ a, pat.head? ≠ some c) :
    ∀ s : Str, s <:+ a → s ≠ [] → pat.isPrefixOf (s ++ b) = false := by
  intro s hsuf hne
  obtain ⟨c, t, rfl⟩ : ∃ c t, s = c :: t := by
    cases s with
    | nil => exact absurd rfl hne
    | cons x y => exact ⟨x, y, rfl⟩
  by_contra hc2
  rw [Bool.not_eq_false, List.isPrefixOf_iff_prefix] at hc2
  obtain ⟨p0, pr, rfl⟩ : ∃ p0 pr, pat = p0 :: pr := by
    cases pat with
    | nil => exact absurd rfl hp
    | cons x y => exact ⟨x, y, rfl⟩
  obtain ⟨u, hu⟩ := hc2
  have h0 : p0 = c := by
    have := congrArg (fun l => l.head?) hu
    simpa using this
  exact hh c (hsuf.subset (List.mem_cons_self _ _)) (by rw [h0]; rfl)

/-- Occurrence count of a nonempty pattern in an empty-free... in the
empty string is zero. -/
theorem occCount_nil {pat : Str} (hp : pat ≠ []) : occCount pat [] = 0 := by
  simp [occCount, List.isEmpty_iff, hp]

/-- Occurrence count splits over an append free of straddling starts. -/
theorem occCount_append_add {pat a b : Str} (hp : pat ≠ [])
    (h : ∀ s : Str, s <:+ a → s.length < pat.length → s ≠ [] →
      pat.isPrefixOf (s ++ b) = false) :
    occCount pat (a ++ b) = occCount pat a + occCount pat b := by
  induction a with
  | nil => simp [occCount_nil hp]
  | cons c t ih =>
      have hsuf : ∀ s : Str, s <:+ t → s.length < pat.length → s ≠ [] →
          pat.isPrefixOf (s ++ b) = false := by
        intro s h1 h2 h3
        exact h s (h1.trans (List.suffix_cons c t)) h2 h3
      show (if pat.isPrefixOf (c :: t ++ b) then 1 else 0) + occCount pat (t ++ b) =
        ((if pat.isPrefixOf (c :: t) then 1 else 0) + occCount pat t) + occCount pat b
      rw [ih hsuf]
      by_cases hl : pat.length ≤ (c :: t).length
      · rw [show (c :: t ++ b) = (c :: t) ++ b from rfl, isPrefixOf_append_of_le hl]
        omega
      · push_neg at hl
        have h1 : pat.isPrefixOf (c :: t ++ b) = false :=
          h (c :: t) (List.suffix_refl _) hl (by simp)
        have h2 : pat.isPrefixOf (c :: t) = false := by
          by_contra hc2
          rw [Bool.not_eq_false, List.isPrefixOf_iff_prefix] at hc2
          have hll := hc2.length_le
          omega
        rw [h1, h2]
        simp

/-- A string containing no occurrence has count zero. -/
theorem occCount_eq_zero_of_not_hasSub {pat s : Str}
    (h : hasSub pat s = false) : occCount pat s = 0 := by
  induction s with
  | nil =>
      simp only [hasSub] at h
      simp [occCount, h]
  | cons c t ih =>
      simp only [hasSub, Bool.or_eq_false_iff] at h
      simp [occCount, h.1, ih h.2]

/-! ### Claim C3 — Model Gateway retry policy -/

/-- C3 counterexample: the claim says a non-503 upstream status fails
immediately on the first attempt without retrying; with an upstream that
always answers 500, the gateway in fact makes 3 attempts (the `catch`
inside the retry loop swallows the thrown error until `attempt === 3`). -/
theorem gemini_non503_retries_counterexample :
    (geminiLoop (fun _ => UpstreamResult.httpErr 500 (str "Internal error")) 3 1).1.attempts = 3 ∧
    (geminiLoop (fun _ => UpstreamResult.httpErr 500 (str "Internal error")) 3 1).1.attempts ≠ 1 :=
  ⟨rfl, by decide⟩

/-- C3 (amended): for an always-503 upstream the gateway makes exactly 3
attempts, sleeping 2 then 4 seconds before the retries, and propagates
the last error; for an upstream always failing with any other status it
also makes exactly 3 attempts — with no delay — and then propagates the
last error (it does not fail on the first attempt). -/
theorem gemini_retry_policy (messages : Nat → Str) :
    ((geminiLoop (fun a => UpstreamResult.httpErr 503 (messages a)) 3 1).1.attempts = 3 ∧
     (geminiLoop (fun a => UpstreamResult.httpErr 503 (messages a)) 3 1).1.delays = [2, 4] ∧
     (geminiLoop (fun a => UpstreamResult.httpErr 503 (messages a)) 3 1).2 =
       Except.error (geminiErrMsg 503 (messages 3))) ∧
    (∀ status : Nat, status ≠ 503 →
      (geminiLoop (fun a => UpstreamResult.httpErr status (messages a)) 3 1).1.attempts = 3 ∧
      (geminiLoop (fun a => UpstreamResult.httpErr status (messages a)) 3 1).1.delays = [] ∧
      (geminiLoop (fun a => UpstreamResult.httpErr status (messages a)) 3 1).2 =
        Except.error (geminiErrMsg status (messages 3))) := by
  constructor
  · simp [geminiLoop]
  · intro status hst
    simp [geminiLoop, hst]

/-- C3 witness: the retry policy evaluated on concrete stub upstreams
(an always-503 one and an always-500 one). -/
theorem gemini_retry_policy_witness :
    ((geminiLoop (fun a => UpstreamResult.httpErr 503 ((fun _ => str "over") a)) 3 1).1.attempts = 3 ∧
     (geminiLoop (fun a => UpstreamResult.httpErr 503 ((fun _ => str "over") a)) 3 1).1.delays = [2, 4] ∧
     (geminiLoop (fun a => UpstreamResult.httpErr 503 ((fun _ => str "over") a)) 3 1).2 =
       Except.error (geminiErrMsg 503 ((fun _ => str "over") 3))) ∧
    ((geminiLoop (fun a => UpstreamResult.httpErr 500 ((fun _ => str "boom") a)) 3 1).1.attempts = 3 ∧
     (geminiLoop (fun a => UpstreamResult.httpErr 500 ((fun _ => str "boom") a)) 3 1).1.delays = [] ∧
     (geminiLoop (fun a => UpstreamResult.httpErr 500 ((fun _ => str "boom") a)) 3 1).2 =
       Except.error (geminiErrMsg 500 ((fun _ => str "boom") 3))) :=
  ⟨(gemini_retry_policy (fun _ => str "over")).1,
   (gemini_retry_policy (fun _ => str "boom")).2 500 (by decide)⟩

/-! ### Claim C5 — continuation loop bounds and soft termination -/

theorem mergeContent_success (e c : GenerationResponse) (ls : Str) :
    (mergeContent e c ls).success = e.success := by
  unfold mergeContent
  split <;> rfl

theorem mergeContent_error (e c : GenerationResponse) (ls : Str) :
    (mergeContent e c ls).error = e.error := by
  unfold mergeContent
  split <;> rfl

theorem ensureCompleteLoop_le (gen : Nat → Except Str GenerationResponse) :
    ∀ rem used resp, (ensureCompleteLoop gen rem used resp).2 ≤ used + rem := by
  intro rem
  induction rem with
  | zero => intro used resp; simp [ensureCompleteLoop]
  | succ n ih =>
      intro used resp
      simp only [ensureCompleteLoop]
      by_cases hv : (validateSinglePageContent resp).isComplete = true
      · simp [hv]
      · simp only [Bool.not_eq_true] at hv
        rw [if_neg (by simp [hv])]
        cases hgen : gen used with
        | error e => dsimp only; omega
        | ok cont =>
            dsimp only
            by_cases hc : (cont.success && !cont.files.isEmpty) = true
            · rw [if_pos hc]
              have := ih (used + 1) (mergeContent resp cont (validateSinglePageContent resp).lastSection)
              omega
            · rw [if_neg hc]
              dsimp only
              omega

theorem ensureCompleteLoop_stops (gen : Nat → Except Str GenerationResponse)
    (rem used : Nat) (resp : GenerationResponse)
    (h : (validateSinglePageContent resp).isComplete = true) :
    ensureCompleteLoop gen rem used resp = (resp, used) := by
  cases rem with
  | zero => rfl
  | succ n =>
      simp only [ensureCompleteLoop]
      rw [if_pos (by simp [h])]

theorem ensureCompleteLoop_success (gen : Nat → Except Str GenerationResponse) :
    ∀ rem used resp, (ensureCompleteLoop gen rem used resp).1.success = resp.success := by
  intro rem
  induction rem with
  | zero => intro used resp; rfl
  | succ n ih =>
      intro used resp
      simp only [ensureCompleteLoop]
      by_cases hv : (validateSinglePageContent resp).isComplete = true
      · rw [if_pos (by simp [hv])]
      · rw [if_neg (by simp [hv])]
        cases hgen : gen used with
        | error e => rfl
        | ok cont =>
            dsimp only
            by_cases hc : (cont.success && !cont.files.isEmpty) = true
            · rw [if_pos hc, ih]
              exact mergeContent_success _ _ _
            · rw [if_neg hc]

theorem ensureCompleteLoop_error (gen : Nat → Except Str GenerationResponse) :
    ∀ rem used resp, (ensureCompleteLoop gen rem used resp).1.error = resp.error := by
  intro rem
  induction rem with
  | zero => intro used resp; rfl
  | succ n ih =>
      intro used resp
      simp only [ensureCompleteLoop]
      by_cases hv : (validateSinglePageContent resp).isComplete = true
      · rw [if_pos (by simp [hv])]
      · rw [if_neg (by simp [hv])]
        cases hgen : gen used with
        | error e => rfl
        | ok cont =>
            dsimp only
            by_cases hc : (cont.success && !cont.files.isEmpty) = true
            · rw [if_pos hc, ih]
              exact mergeContent_error _ _ _
            · rw [if_neg hc]

/-- C5: the continuation loop issues at most 3 continuation attempts,
returns its input untouched (making zero attempts) whenever validation
already reports the document complete, and always returns a response
whose `success` and `error` fields are those of the input — an
incomplete document is returned as-is with no error raised. -/
theorem ensureCompleteGeneration_behavior (gen : Nat → Except Str GenerationResponse)
    (response : GenerationResponse) :
    (ensureCompleteLoop gen 3 0 response).2 ≤ 3 ∧
    ((validateSinglePageContent response).isComplete = true →
      ensureCompleteGeneration gen response = response ∧
      (ensureCompleteLoop gen 3 0 response).2 = 0) ∧
    (ensureCompleteGeneration gen response).success = response.success ∧
    (ensureCompleteGeneration gen response).error = response.error := by
  refine ⟨by simpa using ensureCompleteLoop_le gen 3 0 response, fun h => ?_, ?_, ?_⟩
  · rw [ensureCompleteGeneration, ensureCompleteLoop_stops gen 3 0 response h]
    exact ⟨rfl, rfl⟩
  · exact ensureCompleteLoop_success gen 3 0 response
  · exact ensureCompleteLoop_error gen 3 0 response

/-- Sample complete single-page document for the C5 witness. -/
def c5SampleResponse : GenerationResponse :=
  { success := true
    files := [GFile.mk (str "index.html")
      (str "<header> hero about services testimonial portfolio stats contact <footer> </body></html>")
      (str "html")]
    pages := none
    error := none }

/-- C5 witness: on an already-complete concrete response the loop stops
immediately, whatever the continuation oracle would answer. -/
theorem ensureCompleteGeneration_behavior_witness :
    ensureCompleteGeneration (fun _ => Except.error (str "halt")) c5SampleResponse =
      c5SampleResponse ∧
    (ensureCompleteLoop (fun _ => Except.error (str "halt")) 3 0 c5SampleResponse).2 = 0 :=
  (ensureCompleteGeneration_behavior (fun _ => Except.error (str "halt")) c5SampleResponse).2.1
    (by decide)

/-! ### Claim C4 — Completion Checker characterisation -/

theorem sectionScan_missing (content : Str) :
    ∀ (secs : List (String × List String)) (acc : List Str) (last : Str),
      (secs.foldl (sectionScanStep content) (acc, last)).1 =
        acc ++ (secs.filter (fun sec =>
          !sec.2.any (fun pat => sectionPatTest pat content))).map (fun sec => str sec.1) := by
  intro secs
  induction secs with
  | nil => intro acc last; simp
  | cons sec rest ih =>
      intro acc last
      simp only [List.foldl_cons, List.filter_cons]
      by_cases hm : sec.2.any (fun pat => sectionPatTest pat content) = true
      · rw [show sectionScanStep content (acc, last) sec = (acc, str sec.1) by
          simp [sectionScanStep, hm]]
        rw [ih]
        simp [hm]
      · rw [show sectionScanStep content (acc, last) sec = (acc ++ [str sec.1], last) by
          simp [sectionScanStep, hm]]
        rw [ih]
        have hn : (!sec.2.any fun pat => sectionPatTest pat content) = true := by
          simpa using hm
        rw [if_pos hn]
        simp

/-- C4: for a successful response with a non-empty files list,
`isComplete` holds exactly when every one of the 9 required sections has
some detection pattern matching the primary file's content
(case-insensitively, `.*` not crossing newlines) and the content contains
closing `</html>` and `</body>` tags; and a complete response has an
empty missing-sections list. -/
theorem validateSinglePageContent_spec (response : GenerationResponse)
    (hs : response.success = true) (hf : response.files ≠ []) :
    ((validateSinglePageContent response).isComplete = true ↔
      ((∀ sec ∈ requiredSections,
          sec.2.any (fun pat =>
            sectionPatTest pat (response.files.headD defaultGFile).content) = true) ∧
        containsSubCI (str "</html>") (response.files.headD defaultGFile).content = true ∧
        containsSubCI (str "</body>") (response.files.headD defaultGFile).content = true)) ∧
    ((validateSinglePageContent response).isComplete = true →
      (validateSinglePageContent response).missingSections = []) := by
  have hguard : ¬((!response.success || response.files.isEmpty) = true) := by
    simp [hs, List.isEmpty_iff, hf]
  unfold validateSinglePageContent
  rw [if_neg hguard]
  dsimp only
  rw [sectionScan_missing]
  simp only [List.nil_append]
  constructor
  · rw [Bool.and_eq_true, Bool.and_eq_true]
    constructor
    · rintro ⟨⟨h1, h2⟩, h3⟩
      refine ⟨?_, h2, h3⟩
      rw [List.isEmpty_iff, List.map_eq_nil_iff, List.filter_eq_nil_iff] at h1
      intro sec hsec
      have := h1 sec hsec
      simpa using this
    · rintro ⟨h1, h2, h3⟩
      refine ⟨⟨?_, h2⟩, h3⟩
      rw [List.isEmpty_iff, List.map_eq_nil_iff, List.filter_eq_nil_iff]
      intro sec hsec
      have := h1 sec hsec
      rw [List.any_eq_true] at this
      simpa using this
  · intro h
    rw [Bool.and_eq_true, Bool.and_eq_true] at h
    obtain ⟨⟨h1, _⟩, _⟩ := h
    rw [List.isEmpty_iff] at h1
    exact h1

/-- Sample document carrying all 9 section markers, for the C4 witness. -/
def c4SampleResponse : GenerationResponse :=
  { success := true
    files := [GFile.mk (str "index.html")
      (str "<body><header>x</header> hero about services testimonial gallery stats contact <footer>f</footer></body></html>")
      (str "html")]
    pages := none
    error := none }

/-- C4 witness: a synthetic document with markers for all 9 sections plus
both closing tags is reported complete with no missing sections. -/
theorem validateSinglePageContent_spec_witness :
    (validateSinglePageContent c4SampleResponse).isComplete = true ∧
    (validateSinglePageContent c4SampleResponse).missingSections = [] :=
  have h := validateSinglePageContent_spec c4SampleResponse rfl (List.cons_ne_nil _ _)
  have hc : (validateSinglePageContent c4SampleResponse).isComplete = true :=
    h.1.mpr ⟨by decide, by decide, by decide⟩
  ⟨hc, h.2 hc⟩

/-! ### Claims C1 and C2 — Response Recovery Parser guarantees -/

/-- Did the cascade produce its result through the JSON-parsing strategy
(regex strategy empty, extraction + sanitization + `JSON.parse`
succeeded, and the parsed value and its `files` field are truthy)? -/
def usedJsonStrategy (content : Str) : Bool :=
  (parseWithRegex content).1.isEmpty &&
  (match extractJsonFromContent content with
   | none => false
   | some j =>
       match jsonParse (sanitizeJsonString j) with
       | none => false
       | some parsed =>
           jsTruthy parsed &&
           (match jsGet parsed (str "files") with
            | some fv => jsTruthy fv
            | none => false))

/-- Is this runtime value a file record of kind html (\"markup\") with
non-empty string content? -/
def isHtmlFileObj (j : Json) : Bool :=
  match jsGet j (str "type"), jsGet j (str "content") with
  | some (Json.jstr t), some (Json.jstr c) => t = str "html" && !c.isEmpty
  | _, _ => false

/-- Does the files value hold at least one html file record with
non-empty content? -/
def hasNonEmptyHtmlFile : Json → Bool
  | Json.arr items => items.any isHtmlFileObj
  | _ => false

/-- C1 counterexample: on the input `{\"files\": []}` the parser returns
`success = true` with an empty files list — an empty array is truthy in
JavaScript, so the `!parsed.files` guard does not fire. -/
theorem parse_empty_files_counterexample :
    (parseGeneratedContent (str "\x7b\"files\": []\x7d")).success = true ∧
    (parseGeneratedContent (str "\x7b\"files\": []\x7d")).files = Json.arr [] :=
  ⟨rfl, rfl⟩

/-- C2 counterexample: a well-formed JSON input whose only file is a
stylesheet yields `success = true` with no markup file at all. -/
theorem parse_no_html_counterexample :
    (parseGeneratedContent
      (str "\x7b\"files\": [\x7b\"path\": \"a.css\", \"content\": \"x\", \"type\": \"css\"\x7d]\x7d")).success = true ∧
    hasNonEmptyHtmlFile (parseGeneratedContent
      (str "\x7b\"files\": [\x7b\"path\": \"a.css\", \"content\": \"x\", \"type\": \"css\"\x7d]\x7d")).files = false :=
  ⟨rfl, rfl⟩

theorem scanDoctype_ne_nil : ∀ (fuel : Nat) (s : Str), ∀ x ∈ scanDoctype fuel s, x ≠ [] := by
  intro fuel
  induction fuel with
  | zero => intro s x hx; simp [scanDoctype] at hx
  | succ n ih =>
      intro s x hx
      simp only [scanDoctype] at hx
      by_cases hd : litHereCI "<!DOCTYPE html" s = true
      · rw [if_pos hd] at hx
        cases hk : findSubCI (str "</html>") (s.drop 14) with
        | some k =>
            rw [hk] at hx
            rcases List.mem_cons.mp hx with he | hm
            · subst he
              have hs : s ≠ [] := by
                intro hnil
                subst hnil
                simp [litHereCI, lowerStr, str] at hd
              rw [Ne, List.take_eq_nil_iff]
              push_neg
              exact ⟨by omega, hs⟩
            · exact ih _ x hm
        | none =>
            rw [hk] at hx
            cases s with
            | nil => simp at hx
            | cons c t => exact ih _ x hx
      · rw [if_neg hd] at hx
        cases s with
        | nil => simp at hx
        | cons c t => exact ih _ x hx

theorem parseWithRegex_files_prop {c : Str} :
    ∀ f ∈ (parseWithRegex c).1, f.ftype = str "html" ∧ f.content ≠ [] := by
  intro f hf
  simp only [parseWithRegex] at hf
  by_cases hempty : ((scanTuples (c.length + 1) c).filterMap (fun t =>
      if 100 < (unescapeContent t.2).length then
        some (GFile.mk t.1 (unescapeContent t.2) (str "html")) else none)).isEmpty = true
  · rw [if_pos hempty] at hf
    rw [List.mem_map] at hf
    obtain ⟨p, hp, rfl⟩ := hf
    refine ⟨rfl, ?_⟩
    have hmem : p.2 ∈ scanDoctype (c.length + 1) c := by
      have : p.2 ∈ (scanDoctype (c.length + 1) c).enum.map Prod.snd :=
        List.mem_map_of_mem Prod.snd hp
      rwa [List.enum_map_snd] at this
    exact scanDoctype_ne_nil _ _ _ hmem
  · rw [if_neg hempty] at hf
    rw [List.mem_filterMap] at hf
    obtain ⟨t, _, hsome⟩ := hf
    by_cases hlen : 100 < (unescapeContent t.2).length
    · rw [if_pos hlen] at hsome
      obtain rfl := Option.some.inj hsome
      refine ⟨rfl, ?_⟩
      dsimp only
      intro hnil
      rw [hnil] at hlen
      simp at hlen
    · rw [if_neg hlen] at hsome
      exact absurd hsome (by simp)

theorem fallbackFiles_cases (c : Str) :
    fallbackFiles c = [] ∨
    ∃ h2 : Str, fallbackFiles c = [GFile.mk (str "index.html") h2 (str "html")] ∧
      50 < h2.length := by
  unfold fallbackFiles
  split
  · exact Or.inl rfl
  · dsimp only
    split
    · next hlen => exact Or.inr ⟨_, rfl, hlen⟩
    · exact Or.inl rfl

theorem isHtmlFileObj_gfileJson {f : GFile} (ht : f.ftype = str "html") (hc : f.content ≠ []) :
    isHtmlFileObj (gfileJson f) = true := by
  have h1 : jsGet (gfileJson f) (str "type") = some (Json.jstr f.ftype) := rfl
  have h2 : jsGet (gfileJson f) (str "content") = some (Json.jstr f.content) := rfl
  rw [isHtmlFileObj, h1, h2, ht]
  simp [List.isEmpty_iff, hc]

theorem parseCatch_success_files {c msg : Str} (h : (parseCatch c msg).success = true) :
    ∃ x, (parseCatch c msg).files = Json.arr [x] ∧ isHtmlFileObj x = true := by
  rcases fallbackFiles_cases c with hnil | ⟨h2, heq, hlen⟩
  · exfalso
    unfold parseCatch createFallbackContent at h
    rw [hnil] at h
    simp at h
  · unfold parseCatch createFallbackContent at h ⊢
    rw [heq] at h ⊢
    refine ⟨gfileJson (GFile.mk (str "index.html") h2 (str "html")), rfl, ?_⟩
    exact isHtmlFileObj_gfileJson rfl (by intro hn; simp only at hn; rw [hn] at hlen; simp at hlen)

/-- Master case analysis of the cascade: a successful parse either came
from the JSON strategy (which returns the parsed `files` value as-is) or
carries a non-empty files array headed by an html file record with
non-empty content. -/
theorem parseGeneratedContent_success_cases (content : Str)
    (h : (parseGeneratedContent content).success = true) :
    usedJsonStrategy content = true ∨
    ∃ x xs, (parseGeneratedContent content).files = Json.arr (x :: xs) ∧
      isHtmlFileObj x = true := by
  unfold parseGeneratedContent at h ⊢
  by_cases hre : (parseWithRegex content).1.isEmpty = true
  · rw [if_neg (by simp [hre])] at h ⊢
    cases hext : extractJsonFromContent content with
    | none =>
        rw [hext] at h
        dsimp only at h ⊢
        obtain ⟨x, hx, hhtml⟩ := parseCatch_success_files h
        exact Or.inr ⟨x, [], hx, hhtml⟩
    | some j =>
        rw [hext] at h
        dsimp only at h ⊢
        cases hjson : jsonParse (sanitizeJsonString j) with
        | none =>
            rw [hjson] at h
            dsimp only at h ⊢
            obtain ⟨x, hx, hhtml⟩ := parseCatch_success_files h
            exact Or.inr ⟨x, [], hx, hhtml⟩
        | some parsed =>
            rw [hjson] at h
            dsimp only at h ⊢
            by_cases htp : jsTruthy parsed = true
            · rw [if_pos htp] at h ⊢
              cases hget : jsGet parsed (str "files") with
              | none =>
                  rw [hget] at h
                  dsimp only at h ⊢
                  obtain ⟨x, hx, hhtml⟩ := parseCatch_success_files h
                  exact Or.inr ⟨x, [], hx, hhtml⟩
              | some fv =>
                  rw [hget] at h
                  dsimp only at h ⊢
                  by_cases htf : jsTruthy fv = true
                  · refine Or.inl ?_
                    unfold usedJsonStrategy
                    rw [hext]
                    dsimp only
                    rw [hjson]
                    dsimp only
                    rw [hget]
                    simp [hre, htp, htf]
                  · rw [if_neg htf] at h ⊢
                    obtain ⟨x, hx, hhtml⟩ := parseCatch_success_files h
                    exact Or.inr ⟨x, [], hx, hhtml⟩
            · rw [if_neg htp] at h ⊢
              obtain ⟨x, hx, hhtml⟩ := parseCatch_success_files h
              exact Or.inr ⟨x, [], hx, hhtml⟩
  · rw [if_pos (by simp [Bool.not_eq_true] at hre ⊢; exact hre)] at h ⊢
    refine Or.inr ?_
    obtain ⟨f, fs, hfs⟩ : ∃ f fs, (parseWithRegex content).1 = f :: fs := by
      cases hcase : (parseWithRegex content).1 with
      | nil => rw [hcase] at hre; simp at hre
      | cons f fs => exact ⟨f, fs, rfl⟩
    have hprop := parseWithRegex_files_prop (c := content) f
      (by rw [hfs]; exact List.mem_cons_self _ _)
    refine ⟨gfileJson f, fs.map gfileJson, ?_, isHtmlFileObj_gfileJson hprop.1 hprop.2⟩
    rw [hfs]
    simp

/-- C1 (amended): whenever `parseGeneratedContent` returns
`success = true`, its files list is a non-empty array — except when the
result was produced by the JSON-parsing strategy, which returns the
parsed object's `files` value unchecked (possibly the empty array). -/
theorem parseGeneratedContent_success_files_nonempty (content : Str)
    (h : (parseGeneratedContent content).success = true) :
    usedJsonStrategy content = true ∨
    ∃ x xs, (parseGeneratedContent content).files = Json.arr (x :: xs) := by
  rcases parseGeneratedContent_success_cases content h with hj | ⟨x, xs, hx, _⟩
  · exact Or.inl hj
  · exact Or.inr ⟨x, xs, hx⟩

/-- C2 (amended): whenever `parseGeneratedContent` returns
`success = true`, the result contains at least one file of kind html with
non-empty content — except when the result was produced by the
JSON-parsing strategy, which forwards the parsed `files` value without
inspecting the file kinds. -/
theorem parseGeneratedContent_success_html (content : Str)
    (h : (parseGeneratedContent content).success = true) :
    usedJsonStrategy content = true ∨
    hasNonEmptyHtmlFile (parseGeneratedContent content).files = true := by
  rcases parseGeneratedContent_success_cases content h with hj | ⟨x, xs, hx, hhtml⟩
  · exact Or.inl hj
  · refine Or.inr ?_
    rw [hx]
    simp [hasNonEmptyHtmlFile, hhtml]

/-- C1 witness: the amended statement evaluated on a concrete input that
takes the JSON branch. -/
theorem parseGeneratedContent_success_files_nonempty_witness :
    (parseGeneratedContent (str "\x7b\"files\": [1]\x7d")).success = true ∧
    (usedJsonStrategy (str "\x7b\"files\": [1]\x7d") = true ∨
      ∃ x xs, (parseGeneratedContent (str "\x7b\"files\": [1]\x7d")).files = Json.arr (x :: xs)) :=
  ⟨rfl, parseGeneratedContent_success_files_nonempty _ rfl⟩

/-- C2 witness: the amended statement evaluated on a concrete input that
takes the fallback-synthesis branch. -/
theorem parseGeneratedContent_success_html_witness :
    (parseGeneratedContent
      (str "junk <html><body>hello world this is some more filler text to get above the fifty character cut</body></html>")).success = true ∧
    (usedJsonStrategy
      (str "junk <html><body>hello world this is some more filler text to get above the fifty character cut</body></html>") = true ∨
      hasNonEmptyHtmlFile (parseGeneratedContent
        (str "junk <html><body>hello world this is some more filler text to get above the fifty character cut</body></html>")).files = true) :=
  ⟨rfl, parseGeneratedContent_success_html _ rfl⟩

/-! ### Claim C10 — `generateWebsite` never rejects -/

theorem str_append_ne_left {a : String} (h : str a ≠ []) (t : Str) : str a ++ t ≠ [] := by
  intro hc
  exact h (List.append_eq_nil.mp hc).1

theorem geminiErrMsg_ne (status : Nat) (message : Str) : geminiErrMsg status message ≠ [] := by
  unfold geminiErrMsg
  intro hc
  rw [List.append_assoc, List.append_assoc] at hc
  exact (by decide : str "Gemini API error (" ≠ []) (List.append_eq_nil.mp hc).1

theorem geminiLoop_error_msg_ne (up : Nat → UpstreamResult)
    (hup : ∀ a m, up a = UpstreamResult.netErr m → m ≠ []) :
    ∀ fuel attempt m, attempt ≤ 3 → 3 - attempt < fuel →
      (geminiLoop up fuel attempt).2 = Except.error m → m ≠ [] := by
  intro fuel
  induction fuel with
  | zero => intro attempt m h1 h2 h3; omega
  | succ n ih =>
      intro attempt m h1 h2 heq
      simp only [geminiLoop] at heq
      cases hu : up attempt with
      | httpOk t =>
          rw [hu] at heq
          cases t with
          | some c => simp at heq
          | none =>
              dsimp only at heq
              by_cases ha : attempt = 3
              · rw [if_pos ha] at heq
                dsimp only at heq
                obtain rfl : str "No content generated from Gemini" = m := Except.error.inj heq
                decide
              · rw [if_neg ha] at heq
                dsimp only at heq
                exact ih (attempt + 1) m (by omega) (by omega) heq
      | httpErr status message =>
          rw [hu] at heq
          dsimp only at heq
          by_cases hs : (decide (status = 503) && decide (attempt < 3)) = true
          · rw [if_pos hs] at heq
            dsimp only at heq
            have hlt : attempt < 3 := by
              rw [Bool.and_eq_true] at hs
              simpa using hs.2
            exact ih (attempt + 1) m (by omega) (by omega) heq
          · rw [if_neg hs] at heq
            by_cases ha : attempt = 3
            · rw [if_pos ha] at heq
              dsimp only at heq
              obtain rfl := Except.error.inj heq
              exact geminiErrMsg_ne status message
            · rw [if_neg ha] at heq
              dsimp only at heq
              exact ih (attempt + 1) m (by omega) (by omega) heq
      | netErr message =>
          rw [hu] at heq
          dsimp only at heq
          by_cases ha : attempt = 3
          · rw [if_pos ha] at heq
            dsimp only at heq
            obtain rfl := Except.error.inj heq
            exact hup attempt _ hu
          · rw [if_neg ha] at heq
            dsimp only at heq
            exact ih (attempt + 1) m (by omega) (by omega) heq

/-- C10: `generateWebsite` always resolves to a response (the embedding
is a total function over the `catch`); whenever the wrapped pipeline
throws — missing API key, unsupported or unimplemented provider, network
or upstream error — the returned response has `success = false`, an empty
file list and the thrown message as its error, and that message is
non-empty (assuming the environment's own network-failure messages are,
as every message the code itself constructs is non-empty).  On the
non-throwing path the pipeline's response is returned unchanged. -/
theorem generateWebsite_error_handling (env : PipelineEnv) (request : GenerationRequest)
    (hup : ∀ a m, env.upstream a = UpstreamResult.netErr m → m ≠ []) :
    (∀ msg, generateWebsiteInner env request = Except.error msg →
      generateWebsite env request =
        { success := false, files := [], pages := none, error := some msg } ∧ msg ≠ []) ∧
    (∀ response, generateWebsiteInner env request = Except.ok response →
      generateWebsite env request = response) := by
  constructor
  · intro msg hmsg
    refine ⟨by unfold generateWebsite; rw [hmsg], ?_⟩
    unfold generateWebsiteInner at hmsg
    cases hkey : env.apiKey request.model.provider with
    | none =>
        rw [hkey] at hmsg
        dsimp only at hmsg
        obtain rfl := Except.error.inj hmsg
        exact str_append_ne_left (by decide) _
    | some key =>
        rw [hkey] at hmsg
        dsimp only at hmsg
        cases hprov : request.model.provider with
        | gemini =>
            rw [hprov] at hmsg
            dsimp only at hmsg
            rcases hg : geminiLoop env.upstream 3 1 with ⟨lg, r⟩
            unfold generateWithGemini at hmsg
            rw [hg] at hmsg
            cases r with
            | ok c =>
                dsimp only at hmsg
                by_cases hc : ((env.enhance c).success &&
                    decide (request.projectType = ProjectType.singlePage)) = true
                · rw [if_pos hc] at hmsg
                  exact absurd hmsg (by simp)
                · rw [if_neg hc] at hmsg
                  exact absurd hmsg (by simp)
            | error e =>
                dsimp only at hmsg
                obtain rfl := Except.error.inj hmsg
                refine geminiLoop_error_msg_ne env.upstream hup 3 1 _ (by omega) (by omega) ?_
                rw [hg]
        | openai =>
            rw [hprov] at hmsg
            dsimp only at hmsg
            obtain rfl := Except.error.inj hmsg
            decide
        | claude =>
            rw [hprov] at hmsg
            dsimp only at hmsg
            obtain rfl := Except.error.inj hmsg
            decide
        | other tag =>
            rw [hprov] at hmsg
            dsimp only at hmsg
            obtain rfl := Except.error.inj hmsg
            exact str_append_ne_left (by decide) _
  · intro response hresp
    unfold generateWebsite
    rw [hresp]

/-- Environment for the C10 witness: no API key configured. -/
def c10Env : PipelineEnv :=
  { apiKey := fun _ => none
    upstream := fun _ => UpstreamResult.httpErr 500 (str "x")
    enhance := fun _ => { success := false, files := [], pages := none, error := none }
    contGen := fun _ => Except.error (str "e") }

/-- Request for the C10 witness: the OpenAI provider. -/
def c10Request : GenerationRequest :=
  { prompt := str "a coffee shop landing page"
    model := { id := str "gpt-4o", name := str "GPT-4o",
               provider := Provider.openai, maxTokens := 4096, supportsVision := true }
    hasImage := false
    projectType := ProjectType.singlePage }

/-- C10 witness: a missing-credential request resolves to the failed
response with a non-empty message instead of rejecting. -/
theorem generateWebsite_error_handling_witness :
    generateWebsite c10Env c10Request =
      { success := false, files := [], pages := none,
        error := some (str "API key not found for openai") } ∧
    str "API key not found for openai" ≠ [] :=
  (generateWebsite_error_handling c10Env c10Request
    (fun _ _ h => UpstreamResult.noConfusion h)).1
    (str "API key not found for openai") rfl

/-! ### Claim C9 — prompt builder purity and screenshot omission -/

theorem getLast?_of_suffix {s a : Str} (hsuf : s <:+ a) (hne : s ≠ []) :
    a.getLast? = s.getLast? := by
  obtain ⟨u, rfl⟩ := hsuf
  exact List.getLast?_append_of_ne_nil u hne

theorem no_short_start_of_lasta {pat a b : Str} {c0 : Char}
    (hlast : a.getLast? = some c0) (hc : c0 ∉ pat) :
    ∀ s : Str, s <:+ a → s.length < pat.length → s ≠ [] →
      pat.isPrefixOf (s ++ b) = false := by
  intro s hsuf hlen hne
  by_contra hc2
  rw [Bool.not_eq_false, List.isPrefixOf_iff_prefix] at hc2
  have hslast : s.getLast? = some c0 := by rw [← getLast?_of_suffix hsuf hne, hlast]
  have hpos : 0 < s.length := List.length_pos.mpr hne
  have hchar : (s ++ b).getD (s.length - 1) ' ' = pat.getD (s.length - 1) ' ' :=
    prefix_getD hc2 (by omega) ' '
  rw [getD_append_left (by omega) ' '] at hchar
  have hs1 : s.getD (s.length - 1) ' ' = c0 := by
    rw [List.getD_eq_getElem?_getD, ← List.getLast?_eq_getElem?, hslast]
    rfl
  have : pat.getD (s.length - 1) ' ' ∈ pat := getD_mem (by omega) ' '
  rw [← hchar, hs1] at this
  exact hc this

/-- Containment combiner: right part opening with a character foreign to
the pattern. -/
theorem hasSub_chain_head {pat a b : Str} {c0 : Char} (hp : pat ≠ [])
    (hb0 : b.head? = some c0) (hc : c0 ∉ pat)
    (ha : hasSub pat a = false) (hb : hasSub pat b = false) :
    hasSub pat (a ++ b) = false := by
  rw [hasSub_append_eq hp (fun s _ h2 h3 => no_short_start_of_headb hb0 hc s h2 h3), ha, hb]
  rfl

/-- Containment combiner: left part closing with a character foreign to
the pattern. -/
theorem hasSub_chain_last {pat a b : Str} {c0 : Char} (hp : pat ≠ [])
    (ha0 : a.getLast? = some c0) (hc : c0 ∉ pat)
    (ha : hasSub pat a = false) (hb : hasSub pat b = false) :
    hasSub pat (a ++ b) = false := by
  rw [hasSub_append_eq hp (no_short_start_of_lasta ha0 hc), ha, hb]
  rfl

set_option maxRecDepth 8000 in
/-- C9: `buildSystemPrompt` is a pure function of the request —
identical inputs produce identical prompts — and for a request with no
screenshot attached (and whose own prompt text does not carry the word)
the produced instruction string contains no occurrence of `SCREENSHOT`
at all: the analysis block is omitted entirely, not emitted empty. -/
theorem buildSystemPrompt_pure_and_no_screenshot :
    (∀ r₁ r₂ : GenerationRequest, r₁ = r₂ → buildSystemPrompt r₁ = buildSystemPrompt r₂) ∧
    (∀ r : GenerationRequest, r.hasImage = false →
      hasSub (str "SCREENSHOT") r.prompt = false →
      hasSub (str "SCREENSHOT") (buildSystemPrompt r) = false) := by
  constructor
  · intro r₁ r₂ h
    rw [h]
  · intro r hImg hPrompt
    unfold buildSystemPrompt
    rw [hImg]
    cases hpt : r.projectType with
    | singlePage =>
        simp only [hpt, Bool.false_eq_true, if_false,
          show decide (ProjectType.singlePage = ProjectType.multiPage) = false from rfl,
          List.append_nil, List.nil_append, List.append_assoc]
        refine hasSub_chain_last (by decide) (show sysPromptHead.getLast? = some '\n' from by decide)
          (by decide) (by decide) ?_
        refine hasSub_chain_head (by decide) rfl (by decide) hPrompt ?_
        refine hasSub_chain_head (by decide) rfl (by decide) (by decide) ?_
        refine hasSub_chain_last (by decide) (show sysPromptSeg2.getLast? = some ' ' from by decide)
          (by decide) (by decide) ?_
        refine hasSub_chain_head (by decide) rfl (by decide) (by decide) ?_
        refine hasSub_chain_last (by decide) (show sysPromptSeg3.getLast? = some ' ' from by decide)
          (by decide) (by decide) ?_
        refine hasSub_chain_head (by decide) rfl (by decide) (by decide) ?_
        refine hasSub_chain_head (by decide) rfl (by decide) (by decide) ?_
        refine hasSub_chain_last (by decide) (show sysPromptSeg5.getLast? = some '\n' from by decide)
          (by decide) (by decide) ?_
        exact hasSub_chain_head (by decide) rfl (by decide) (by decide) (by decide)
    | multiPage =>
        simp only [hpt, Bool.false_eq_true, if_false,
          show decide (ProjectType.multiPage = ProjectType.multiPage) = true from rfl,
          if_true, List.append_nil, List.nil_append, List.append_assoc]
        refine hasSub_chain_last (by decide) (show sysPromptHead.getLast? = some '\n' from by decide)
          (by decide) (by decide) ?_
        refine hasSub_chain_head (by decide) rfl (by decide) hPrompt ?_
        refine hasSub_chain_head (by decide) rfl (by decide) (by decide) ?_
        refine hasSub_chain_head (by decide) rfl (by decide) (by decide) ?_
        refine hasSub_chain_head (by decide) rfl (by decide) (by decide) ?_
        refine hasSub_chain_last (by decide) (show sysPromptSeg3.getLast? = some ' ' from by decide)
          (by decide) (by decide) ?_
        refine hasSub_chain_head (by decide) rfl (by decide) (by decide) ?_
        refine hasSub_chain_head (by decide) rfl (by decide) (by decide) ?_
        refine hasSub_chain_head (by decide) rfl (by decide) (by decide) ?_
        exact hasSub_chain_head (by decide) rfl (by decide) (by decide) (by decide)

/-- Screenshot-free request for the C9 witness. -/
def c9Request : GenerationRequest :=
  { prompt := str "a coffee shop landing page"
    model := { id := str "gemini-2.5-pro", name := str "Gemini 2.5 Pro",
               provider := Provider.gemini, maxTokens := 8192, supportsVision := true }
    hasImage := false
    projectType := ProjectType.singlePage }

/-- C9 witness: the builder evaluated on a concrete screenshot-free
request. -/
theorem buildSystemPrompt_pure_and_no_screenshot_witness :
    buildSystemPrompt c9Request = buildSystemPrompt c9Request ∧
    hasSub (str "SCREENSHOT") (buildSystemPrompt c9Request) = false :=
  ⟨buildSystemPrompt_pure_and_no_screenshot.1 c9Request c9Request rfl,
   buildSystemPrompt_pure_and_no_screenshot.2 c9Request rfl (by decide)⟩

/-- No `[` character (so a marker cannot start inside). -/
def noBracket (l : Str) : Bool := l.all (fun c => c ≠ '[')

/-- No `$` character (so `GetSubstitution` is inert). -/
def noDollar (l : Str) : Bool := l.all (fun c => c ≠ '$')

/-- Text free of both marker and substitution metacharacters. -/
def cleanField (l : Str) : Bool := noBracket l && noDollar l

/-- All five fields of an image record are clean. -/
def cleanImage (img : UnsplashImage) : Bool :=
  cleanField img.id && cleanField img.urlRegular && cleanField img.altDescription &&
  cleanField img.description && cleanField img.userName

/-- Cleanliness is preserved by append. -/
theorem cleanField_append {a b : Str} (ha : cleanField a = true) (hb : cleanField b = true) :
    cleanField (a ++ b) = true := by
  simp only [cleanField, noBracket, noDollar, List.all_append, Bool.and_eq_true] at *
  exact ⟨⟨ha.1, hb.1⟩, ha.2, hb.2⟩

/-- A clean string has no `[`. -/
theorem cleanField_no_bracket {l : Str} (h : cleanField l = true) : ∀ c ∈ l, c ≠ '[' := by
  simp only [cleanField, noBracket, Bool.and_eq_true, List.all_eq_true] at h
  intro c hc
  simpa using h.1 c hc

/-- A clean string has no `$`. -/
theorem cleanField_no_dollar {l : Str} (h : cleanField l = true) : ∀ c ∈ l, c ≠ '$' := by
  simp only [cleanField, noDollar, Bool.and_eq_true, List.all_eq_true] at h
  intro c hc
  simpa using h.2 c hc

/-- The image element built from a clean image, clean alt text and
clean classes is itself clean: its literal segments contain neither `[`
nor `$`, and every interpolated piece is one of the clean inputs. -/
theorem getImageMarkup_clean {img : UnsplashImage} {alt cls : Str}
    (himg : cleanImage img = true) (halt : cleanField alt = true)
    (hcls : cleanField cls = true) :
    cleanField (getImageMarkup img alt cls) = true := by
  simp only [cleanImage, Bool.and_eq_true] at himg
  obtain ⟨⟨⟨⟨hid, hurl⟩, haltd⟩, hdesc⟩, huser⟩ := himg
  unfold getImageMarkup
  refine cleanField_append (cleanField_append (cleanField_append (cleanField_append
    (cleanField_append (cleanField_append (cleanField_append (cleanField_append
      (cleanField_append (cleanField_append (by decide) hurl) (by decide)) ?_)
      (by decide)) hcls) (by decide)) hid) (by decide)) huser) (by decide)
  split
  · exact halt
  · split
    · exact haltd
    · split
      · exact hdesc
      · decide

/-- Splicing at a marked position: when the prefix has no `[` and the
pattern starts with `[`, the first occurrence is the marked one, and a
dollar-free replacement goes in verbatim. -/
theorem jsReplaceFirst_marked {M : Str} (P X H : Str) (hM : M.head? = some '[')
    (hP : ∀ c ∈ P, c ≠ '[') (hH : ∀ c ∈ H, c ≠ '$') :
    jsReplaceFirst (P ++ M ++ X) M H = P ++ H ++ X := by
  have hfind : findSub M (P ++ M ++ X) = some P.length := findSub_of_clean_head hM hP
  rw [jsReplaceFirst_splice hfind hH]
  congr 1
  · congr 1
    rw [List.append_assoc]
    exact take_append_self
  · rw [List.append_assoc, drop_append_self]
    exact List.drop_left _ _

/-- A tail of content laid out as marker/separator pairs: the marker of
each variant followed by the text separating it from the next. -/
def markedTail : List (Str × Str) → Str
  | [] => []
  | (v, p) :: rest => imageMarker v ++ (p ++ markedTail rest)

/-- The expected result of the variant loop on such a tail: the marker
at position `idx` is replaced by the element built from the candidate at
`idx % images.length`, and the index advances by one per variant. -/
def cycleSubstituted (images : List UnsplashImage) : Nat → List (Str × Str) → Str
  | _, [] => []
  | idx, (v, p) :: rest =>
      getImageMarkup (images.getD (idx % images.length) defaultImage)
          (v ++ str " image") variantClasses
        ++ (p ++ cycleSubstituted images (idx + 1) rest)

/-- Every marker starts with `[`. -/
theorem imageMarker_head (v : Str) : (imageMarker v).head? = some '[' := rfl

/-- The variant loop on marked content: provided the prefix and the
separators contain no `[` (so each marker is found exactly where laid
out) and the images are clean (so replacements introduce no new marker
or `$`), each variant's marker is replaced in order by the image element
of the cycled candidate. -/
theorem applyVariants_marked (images : List UnsplashImage)
    (himg : ∀ img ∈ images, cleanImage img = true) (parts : List (Str × Str)) :
    ∀ (idx : Nat) (P : Str), (∀ c ∈ P, c ≠ '[') →
      (∀ vp ∈ parts, cleanField vp.1 = true ∧ ∀ c ∈ vp.2, c ≠ '[') →
      applyVariants images (parts.map Prod.fst) idx (P ++ markedTail parts) =
        P ++ cycleSubstituted images idx parts := by
  induction parts with
  | nil =>
      intro idx P hP hp
      simp [applyVariants, markedTail, cycleSubstituted]
  | cons vp rest ih =>
      obtain ⟨v, p⟩ := vp
      intro idx P hP hparts
      have hv := (hparts (v, p) (List.mem_cons_self _ _)).1
      have hp2 := (hparts (v, p) (List.mem_cons_self _ _)).2
      have hrest : ∀ vp ∈ rest, cleanField vp.1 = true ∧ ∀ c ∈ vp.2, c ≠ '[' :=
        fun vp hvp => hparts vp (List.mem_cons_of_mem _ hvp)
      have himgsel : cleanImage (images.getD (idx % images.length) defaultImage) = true := by
        cases images with
        | nil => simp [List.getD]; decide
        | cons a t =>
            refine himg _ ?_
            have hlt : idx % (a :: t).length < (a :: t).length :=
              Nat.mod_lt _ (by simp)
            rw [List.getD_eq_getElem?_getD, List.getElem?_eq_getElem hlt]
            exact List.getElem_mem _
      have hmk : cleanField (getImageMarkup (images.getD (idx % images.length) defaultImage)
          (v ++ str " image") variantClasses) = true :=
        getImageMarkup_clean himgsel (cleanField_append hv (by decide)) (by decide)
      simp only [markedTail, List.map_cons, applyVariants, cycleSubstituted]
      have hre : P ++ (imageMarker v ++ (p ++ markedTail rest))
          = P ++ imageMarker v ++ (p ++ markedTail rest) := by
        simp [List.append_assoc]
      rw [hre, jsReplaceFirst_marked P (p ++ markedTail rest) _ (imageMarker_head v) hP
        (cleanField_no_dollar hmk)]
      have hre2 : P ++ getImageMarkup (images.getD (idx % images.length) defaultImage)
            (v ++ str " image") variantClasses ++ (p ++ markedTail rest)
          = (P ++ getImageMarkup (images.getD (idx % images.length) defaultImage)
            (v ++ str " image") variantClasses ++ p) ++ markedTail rest := by
        simp [List.append_assoc]
      rw [hre2, ih (idx + 1) _ ?_ hrest]
      · simp [List.append_assoc]
      · intro c hc
        rcases List.mem_append.mp hc with hc | hc
        · rcases List.mem_append.mp hc with hc | hc
          · exact hP c hc
          · exact cleanField_no_bracket hmk c hc
        · exact hp2 c hc

/-- The cycled substitution, re-indexed: the element at list position
`i` (counting from `idx`) uses the candidate at index `i % n`. -/
theorem cycleSubstituted_enumFrom (images : List UnsplashImage) :
    ∀ (parts : List (Str × Str)) (idx : Nat),
      cycleSubstituted images idx parts
        = (parts.enumFrom idx).foldr
            (fun ivp acc =>
              getImageMarkup (images.getD (ivp.1 % images.length) defaultImage)
                (ivp.2.1 ++ str " image") variantClasses ++ (ivp.2.2 ++ acc)) [] := by
  intro parts
  induction parts with
  | nil => intro idx; rfl
  | cons vp rest ih =>
      intro idx
      obtain ⟨v, p⟩ := vp
      simp only [cycleSubstituted, List.enumFrom, List.foldr, ih (idx + 1)]

/-- **C7**: in `enhanceWithImages`, for a base section whose markers
were collected in order and for the fetched candidate images, the i-th
variant (0-based, in collection order) is substituted with the candidate
image at index `i % images.length`: the variant loop on content laid out
as prefix + marker/separator pairs yields the prefix followed by each
separator pair with its marker replaced by the image element of
candidate `i mod n`, provided prefix and separators contain no `[` and
the image fields are free of `[` and `$`. -/
theorem enhance_variant_cycling (images : List UnsplashImage) (parts : List (Str × Str))
    (P : Str)
    (himg : ∀ img ∈ images, cleanImage img = true)
    (hP : ∀ c ∈ P, c ≠ '[')
    (hparts : ∀ vp ∈ parts, cleanField vp.1 = true ∧ ∀ c ∈ vp.2, c ≠ '[') :
    applyVariants images (parts.map Prod.fst) 0 (P ++ markedTail parts)
      = P ++ (parts.enumFrom 0).foldr
          (fun ivp acc =>
            getImageMarkup (images.getD (ivp.1 % images.length) defaultImage)
              (ivp.2.1 ++ str " image") variantClasses ++ (ivp.2.2 ++ acc)) [] := by
  rw [applyVariants_marked images himg parts 0 P hP hparts, cycleSubstituted_enumFrom]

/-- Two fetched candidates, as in the spec's worked example. -/
def c7Images : List UnsplashImage :=
  [⟨str "id-a", str "https://images.example/a", str "a photo", str "first", str "Ann"⟩,
   ⟨str "id-b", str "https://images.example/b", str "b photo", str "second", str "Ben"⟩]

/-- Five `gallery` variants with interleaved markup. -/
def c7Parts : List (Str × Str) :=
  [(str "gallery1", str "<p>one</p>"), (str "gallery2", str "<p>two</p>"),
   (str "gallery3", str "<p>three</p>"), (str "gallery4", str "<p>four</p>"),
   (str "gallery5", str "</div>")]

/-- With 2 images and 5 variants the substitutions use candidate
indices `[0, 1, 0, 1, 0]`. -/
theorem enhance_variant_cycling_witness :
    (applyVariants c7Images (c7Parts.map Prod.fst) 0 (str "<div>" ++ markedTail c7Parts)
      = str "<div>" ++ (c7Parts.enumFrom 0).foldr
          (fun ivp acc =>
            getImageMarkup (c7Images.getD (ivp.1 % c7Images.length) defaultImage)
              (ivp.2.1 ++ str " image") variantClasses ++ (ivp.2.2 ++ acc)) [])
    ∧ (c7Parts.enumFrom 0).map (fun ivp => ivp.1 % c7Images.length) = [0, 1, 0, 1, 0] :=
  ⟨enhance_variant_cycling c7Images c7Parts (str "<div>") (by decide) (by decide) (by decide),
   by decide⟩

/-- No occurrence of the pattern can start strictly inside a short left
part when the right part opens with the pattern itself and the pattern's
first character recurs nowhere else in it. -/
theorem no_short_start_of_self {pat B : Str} {c0 : Char} (hh : pat.head? = some c0)
    (hk : ∀ k, 0 < k → k < pat.length → pat.getD k ' ' ≠ c0) :
    ∀ s : Str, s.length < pat.length → s ≠ [] →
      pat.isPrefixOf (s ++ (pat ++ B)) = false := by
  intro s hlen hne
  by_contra hc2
  rw [Bool.not_eq_false, List.isPrefixOf_iff_prefix] at hc2
  have hpos : 0 < s.length := List.length_pos.mpr hne
  have hchar : (s ++ (pat ++ B)).getD s.length ' ' = pat.getD s.length ' ' :=
    prefix_getD hc2 hlen ' '
  rw [getD_append_right (le_refl _) ' '] at hchar
  simp only [Nat.sub_self] at hchar
  have h0 : (pat ++ B).getD 0 ' ' = c0 := by
    obtain ⟨p0, pr, rfl⟩ : ∃ p0 pr, pat = p0 :: pr := by
      cases pat with
      | nil => simp at hh
      | cons x y => exact ⟨x, y, rfl⟩
    simp only [List.cons_append, List.getD_cons_zero]
    simpa using hh
  rw [h0] at hchar
  exact hk s.length hpos hlen hchar.symm

/-- First-occurrence position of a marked pattern: with no occurrence
inside the left part and no straddling start, the find lands exactly at
the mark. -/
theorem findSub_append_of_not_hasSub {pat L B : Str}
    (hL : hasSub pat L = false)
    (hcross : ∀ s : Str, s.length < pat.length → s ≠ [] →
      pat.isPrefixOf (s ++ (pat ++ B)) = false) :
    findSub pat (L ++ (pat ++ B)) = some L.length := by
  refine findSub_eq_some_of_min ?_ ?_
  · have := occursAtB_of_append L pat B
    rwa [List.append_assoc] at this
  · intro k hk
    have hdrop : (L ++ (pat ++ B)).drop k = L.drop k ++ (pat ++ B) := by
      rw [List.drop_append_eq_append_drop, Nat.sub_eq_zero_of_le (le_of_lt hk),
        List.drop_zero]
    show pat.isPrefixOf ((L ++ (pat ++ B)).drop k) = false
    rw [hdrop]
    by_cases hfit : k + pat.length ≤ L.length
    · rw [isPrefixOf_append_of_le (by rw [List.length_drop]; omega)]
      exact occursAtB_false_of_not_hasSub hL k
    · push_neg at hfit
      refine hcross (L.drop k) ?_ ?_
      · rw [List.length_drop]; omega
      · intro hnil
        have := congrArg List.length hnil
        rw [List.length_drop] at this
        simp only [List.length_nil] at this
        omega

/-- For a document ending in the three closing wrapper tags whose body
contains no other case-insensitive `</main>`, the insertion point is
exactly the position of that final `</main>`. -/
theorem insertionIdx_before_main {pre : Str}
    (h : hasSub (str "</main>") (lowerStr pre) = false) :
    insertionIdx (pre ++ str "</main></body></html>") = pre.length := by
  have hsplit : lowerStr (pre ++ str "</main></body></html>")
      = lowerStr pre ++ (str "</main>" ++ str "</body></html>") := by
    simp only [lowerStr, List.map_append]
    congr 1
  have hcross : ∀ s : Str, s.length < (str "</main>").length → s ≠ [] →
      (str "</main>").isPrefixOf (s ++ (str "</main>" ++ str "</body></html>")) = false := by
    refine no_short_start_of_self rfl ?_
    intro k hk0 hklt
    have h7 : (str "</main>").length = 7 := rfl
    rw [h7] at hklt
    interval_cases k <;> decide
  have heq : findSubCI (str "</main>") (pre ++ str "</main></body></html>")
      = some pre.length := by
    unfold findSubCI
    rw [show lowerStr (str "</main>") = str "</main>" from rfl, hsplit,
      findSub_append_of_not_hasSub h hcross]
    simp [lowerStr]
  unfold insertionIdx
  rw [heq]

/-- Occurrence count of a closing tag in the merged layout
prefix + blank line + fragment + blank line + closing tags: one. -/
theorem occCount_wrapped_once {tag L C : Str} (hp : tag ≠ [])
    (hnl : '\n' ∉ tag)
    (hh : ∀ c ∈ str "\n\n", tag.head? ≠ some c)
    (hL : hasSub tag L = false) (hC : hasSub tag C = false)
    (hnn : occCount tag (str "\n\n") = 0)
    (hT : occCount tag (str "</main></body></html>") = 1) :
    occCount tag (L ++ (str "\n\n" ++ (C ++ (str "\n\n" ++ str "</main></body></html>"))))
      = 1 := by
  have hb1 : (str "\n\n" ++ (C ++ (str "\n\n" ++ str "</main></body></html>"))).head?
      = some '\n' := rfl
  have hb3 : (str "\n\n" ++ str "</main></body></html>").head? = some '\n' := rfl
  rw [occCount_append_add hp (fun s _ h2 h3 => no_short_start_of_headb hb1 hnl s h2 h3),
    occCount_append_add hp (fun s h1 _ h3 => no_start_of_mem hp hh s h1 h3),
    occCount_append_add hp (fun s _ h2 h3 => no_short_start_of_headb hb3 hnl s h2 h3),
    occCount_append_add hp (fun s h1 _ h3 => no_start_of_mem hp hh s h1 h3)]
  simp [occCount_eq_zero_of_not_hasSub hL, occCount_eq_zero_of_not_hasSub hC, hnn, hT]

/-- **C6**: `mergeContent` strips the duplicate document-level wrapper
tags from the continuation (`cleanContinuationOf`) and splices the
cleaned fragment into the existing document at the preferred delimiter:
for an existing document ending `</main></body></html>` whose body has
no other (case-insensitive) closing wrapper tag, and a continuation
whose cleaned text has none either, the merged file is exactly
prefix + blank line + cleaned fragment + blank line + closing tags —
the fragment sits immediately before `</main>`, not after `</html>` —
and each of `</main>`, `</body>`, `</html>` still occurs exactly once
in the merged document. -/
theorem mergeContent_inserts_before_main
    (er cr : GenerationResponse) (ef cf : GFile) (et ct : List GFile) (ls pre : Str)
    (he : er.files = ef :: et) (hc : cr.files = cf :: ct)
    (hdoc : ef.content = pre ++ str "</main></body></html>")
    (hmain : hasSub (str "</main>") (lowerStr pre) = false)
    (hbody : hasSub (str "</body>") (lowerStr pre) = false)
    (hhtml : hasSub (str "</html>") (lowerStr pre) = false)
    (hcmain : hasSub (str "</main>") (lowerStr (cleanContinuationOf cf.content)) = false)
    (hcbody : hasSub (str "</body>") (lowerStr (cleanContinuationOf cf.content)) = false)
    (hchtml : hasSub (str "</html>") (lowerStr (cleanContinuationOf cf.content)) = false) :
    mergeContent er cr ls = { er with files := [{ ef with content :=
        pre ++ (str "\n\n") ++ (cleanContinuationOf cf.content) ++ (str "\n\n")
          ++ (str "</main></body></html>") }] } ∧
    ∀ tag ∈ [str "</main>", str "</body>", str "</html>"],
      occCount tag (lowerStr (pre ++ str "\n\n" ++ cleanContinuationOf cf.content
        ++ str "\n\n" ++ str "</main></body></html>")) = 1 := by
  have hip : insertionIdx ef.content = pre.length := by
    rw [hdoc]
    exact insertionIdx_before_main hmain
  constructor
  · unfold mergeContent
    rw [he, hc]
    dsimp only
    rw [hip, hdoc, take_append_self, List.drop_left]
  · intro tag htag
    have h1 : List.map Char.toLower (str "\n\n") = str "\n\n" := rfl
    have h2 : List.map Char.toLower (str "</main></body></html>")
        = str "</main></body></html>" := rfl
    have hmap : lowerStr (pre ++ str "\n\n" ++ cleanContinuationOf cf.content
        ++ str "\n\n" ++ str "</main></body></html>")
        = lowerStr pre ++ (str "\n\n" ++ (lowerStr (cleanContinuationOf cf.content)
          ++ (str "\n\n" ++ str "</main></body></html>"))) := by
      simp only [lowerStr, List.map_append, List.append_assoc, h1, h2]
    rw [hmap]
    simp only [List.mem_cons, List.not_mem_nil, or_false] at htag
    rcases htag with rfl | rfl | rfl
    · exact occCount_wrapped_once (by decide) (by decide) (by decide) hmain hcmain
        (by decide) (by decide)
    · exact occCount_wrapped_once (by decide) (by decide) (by decide) hbody hcbody
        (by decide) (by decide)
    · exact occCount_wrapped_once (by decide) (by decide) (by decide) hhtml hchtml
        (by decide) (by decide)

/-- The spec's worked example: an existing document ending with the
three closing wrapper tags. -/
def c6ExistingFile : GFile :=
  GFile.mk (str "index.html")
    (str "<html><body><main><p>hello</p>" ++ str "</main></body></html>")
    (str "html")

/-- The existing response holding that document. -/
def c6Existing : GenerationResponse :=
  { success := true
    files := [c6ExistingFile]
    pages := none
    error := none }

/-- A continuation fragment carrying a duplicate `<body>` opener. -/
def c6ContinuationFile : GFile :=
  GFile.mk (str "index.html") (str "<body><section>contact</section>") (str "html")

/-- The continuation response. -/
def c6Continuation : GenerationResponse :=
  { success := true
    files := [c6ContinuationFile]
    pages := none
    error := none }

/-- C6 witness: the merge evaluated on the concrete example; the
fragment lands before `</main>` and each closing tag count is one. -/
theorem mergeContent_inserts_before_main_witness :
    (mergeContent c6Existing c6Continuation [] = { c6Existing with
      files := [{ c6ExistingFile with content :=
        (str "<html><body><main><p>hello</p>") ++ (str "\n\n")
          ++ (cleanContinuationOf c6ContinuationFile.content) ++ (str "\n\n")
          ++ (str "</main></body></html>") }] } ∧
    ∀ tag ∈ [str "</main>", str "</body>", str "</html>"],
      occCount tag (lowerStr ((str "<html><body><main><p>hello</p>") ++ str "\n\n"
        ++ cleanContinuationOf c6ContinuationFile.content
        ++ str "\n\n" ++ str "</main></body></html>")) = 1) :=
  mergeContent_inserts_before_main c6Existing c6Continuation c6ExistingFile
    c6ContinuationFile [] [] [] (str "<html><body><main><p>hello</p>")
    rfl rfl rfl (by decide) (by decide) (by decide) (by decide) (by decide) (by decide)

/-- A word character is neither `[` nor `$`. -/
theorem wordChar_clean {c : Char} (h : wordChar c = true) : c ≠ '[' ∧ c ≠ '$' := by
  constructor <;> rintro rfl <;> exact absurd h (by decide)

/-- A string of word characters is clean. -/
theorem cleanField_of_wordChar {w : Str} (h : w.all wordChar = true) :
    cleanField w = true := by
  simp only [cleanField, noBracket, noDollar, Bool.and_eq_true, List.all_eq_true] at h ⊢
  exact ⟨fun c hc => by simpa using (wordChar_clean (h c hc)).1,
         fun c hc => by simpa using (wordChar_clean (h c hc)).2⟩

/-- One unfolding step of the marker scanner. -/
theorem scanMarkers_succ (n : Nat) (s : Str) :
    scanMarkers (n + 1) s =
      match litConsume "[IMAGE:" s with
      | some s1 =>
          let w := s1.takeWhile wordChar
          if !w.isEmpty && (s1.drop w.length).head? = some ']' then
            w :: scanMarkers n (s1.drop (w.length + 1))
          else
            match s with
            | [] => []
            | _ :: t => scanMarkers n t
      | none =>
          match s with
          | [] => []
          | _ :: t => scanMarkers n t := rfl

/-- Every variant name the scanner collects is a run of word
characters (it is a maximal `takeWhile wordChar`). -/
theorem scanMarkers_wordChar : ∀ (fuel : Nat) (s : Str),
    ∀ u ∈ scanMarkers fuel s, u.all wordChar = true := by
  intro fuel
  induction fuel with
  | zero => intro s u hu; simp [scanMarkers] at hu
  | succ n ih =>
      intro s u hu
      rw [scanMarkers_succ] at hu
      cases hlit : litConsume "[IMAGE:" s with
      | some s1 =>
          rw [hlit] at hu
          dsimp only at hu
          split at hu
          · rcases List.mem_cons.mp hu with rfl | hu2
            · exact List.all_eq_true.mpr (fun c hc => List.mem_takeWhile_imp hc)
            · exact ih _ _ hu2
          · cases s with
            | nil => simp at hu
            | cons c t => exact ih _ _ hu
      | none =>
          rw [hlit] at hu
          dsimp only at hu
          cases s with
          | nil => simp at hu
          | cons c t => exact ih _ _ hu

/-- `addVariant` preserves a pointwise property of the recorded
variants. -/
theorem addVariant_all {P : Str → Prop} :
    ∀ (m : List (Str × List Str)) (base v : Str),
      (∀ e ∈ m, ∀ u ∈ e.2, P u) → P v →
      ∀ e ∈ addVariant m base v, ∀ u ∈ e.2, P u := by
  intro m
  induction m with
  | nil =>
      intro base v _ hv e he u hu
      simp only [addVariant, List.mem_singleton] at he
      subst he
      simp only [List.mem_singleton] at hu
      subst hu
      exact hv
  | cons p rest ih =>
      intro base v hm hv e he u hu
      obtain ⟨b, vs⟩ := p
      simp only [addVariant] at he
      split at he
      · rcases List.mem_cons.mp he with rfl | he2
        · dsimp only at hu
          split at hu
          · exact hm (b, vs) (List.mem_cons_self _ _) u hu
          · rcases List.mem_append.mp hu with hu1 | hu2
            · exact hm (b, vs) (List.mem_cons_self _ _) u hu1
            · simp only [List.mem_singleton] at hu2
              subst hu2
              exact hv
        · exact hm e (List.mem_cons_of_mem _ he2) u hu
      · rcases List.mem_cons.mp he with rfl | he2
        · exact hm (b, vs) (List.mem_cons_self _ _) u hu
        · exact ih base v (fun e2 h2 u2 hu2 => hm e2 (List.mem_cons_of_mem _ h2) u2 hu2)
            hv e he2 u hu

/-- The variant-recording fold preserves the property when every newly
recorded variant has it. -/
theorem foldl_addVariant_all {P : Str → Prop} :
    ∀ (L : List Str) (m : List (Str × List Str)),
      (∀ e ∈ m, ∀ u ∈ e.2, P u) → (∀ v ∈ L, P v) →
      ∀ e ∈ L.foldl (fun m v => addVariant m (stripTrailingDigits v) v) m,
        ∀ u ∈ e.2, P u := by
  intro L
  induction L with
  | nil => intro m hm _ e he; exact hm e he
  | cons v t ih =>
      intro m hm hL e he u hu
      rw [List.foldl_cons] at he
      exact ih _ (addVariant_all m _ v hm (hL v (List.mem_cons_self _ _)))
        (fun w hw => hL w (List.mem_cons_of_mem _ hw)) e he u hu

/-- The file-level fold of `buildSectionsMap` keeps every recorded
variant a word-character run. -/
theorem buildSectionsMap_foldl_wordChar :
    ∀ (files : List GFile) (m : List (Str × List Str)),
      (∀ e ∈ m, ∀ u ∈ e.2, u.all wordChar = true) →
      ∀ e ∈ files.foldl (fun m f =>
          if f.ftype = str "html" then
            (scanMarkers (f.content.length + 1) f.content).foldl
              (fun m v => addVariant m (stripTrailingDigits v) v) m
          else m) m,
        ∀ u ∈ e.2, u.all wordChar = true := by
  intro files
  induction files with
  | nil => intro m hm e he; exact hm e he
  | cons f t ih =>
      intro m hm e he
      rw [List.foldl_cons] at he
      refine ih _ ?_ e he
      split
      · exact foldl_addVariant_all _ m hm (fun v hv => scanMarkers_wordChar _ _ v hv)
      · exact hm

/-- Every variant recorded in the sections map is a word-character
run. -/
theorem buildSectionsMap_wordChar (files : List GFile) :
    ∀ e ∈ buildSectionsMap files, ∀ u ∈ e.2, u.all wordChar = true :=
  buildSectionsMap_foldl_wordChar files [] (by simp)

/-- One whole-marker resolution step: some occurrence of the marker of
a variant recorded in the sections map is replaced, in its entirety, by
the complete image element built from one of that section's fetched
candidates.  Nothing else changes. -/
inductive MarkerStep (imageMap : Str → List UnsplashImage)
    (sm : List (Str × List Str)) : Str → Str → Prop
  | subst (entry : Str × List Str) (v : Str) (img : UnsplashImage) (A B : Str)
      (hentry : entry ∈ sm) (hv : v ∈ entry.2) (himg : img ∈ imageMap entry.1) :
      MarkerStep imageMap sm (A ++ imageMarker v ++ B)
        (A ++ getImageMarkup img (v ++ str " image") variantClasses ++ B)

/-- The variant loop only performs whole-marker steps: its result is
reachable from the input by marker substitutions (a variant whose
marker is absent contributes a refl step — its text is untouched). -/
theorem applyVariants_resolves (imageMap : Str → List UnsplashImage)
    (sm : List (Str × List Str))
    (hclean : ∀ b, ∀ img ∈ imageMap b, cleanImage img = true)
    (entry : Str × List Str) (hentry : entry ∈ sm)
    (hne : (imageMap entry.1).isEmpty = false) :
    ∀ (variants : List Str), (∀ v ∈ variants, v ∈ entry.2) →
      (∀ v ∈ variants, cleanField v = true) →
      ∀ (idx : Nat) (content : Str),
        Relation.ReflTransGen (MarkerStep imageMap sm) content
          (applyVariants (imageMap entry.1) variants idx content) := by
  intro variants
  induction variants with
  | nil =>
      intro _ _ idx content
      exact Relation.ReflTransGen.refl
  | cons v rest ih =>
      intro hv hvc idx content
      simp only [applyVariants]
      refine Relation.ReflTransGen.trans ?_
        (ih (fun w hw => hv w (List.mem_cons_of_mem _ hw))
          (fun w hw => hvc w (List.mem_cons_of_mem _ hw)) (idx + 1) _)
      have hlen : 0 < (imageMap entry.1).length := by
        cases himages : imageMap entry.1 with
        | nil => rw [himages] at hne; simp at hne
        | cons a t => simp
      have himgmem : (imageMap entry.1).getD (idx % (imageMap entry.1).length) defaultImage
          ∈ imageMap entry.1 := by
        have hlt : idx % (imageMap entry.1).length < (imageMap entry.1).length :=
          Nat.mod_lt _ hlen
        rw [List.getD_eq_getElem?_getD, List.getElem?_eq_getElem hlt]
        exact List.getElem_mem _
      have hmk : cleanField (getImageMarkup
          ((imageMap entry.1).getD (idx % (imageMap entry.1).length) defaultImage)
          (v ++ str " image") variantClasses) = true :=
        getImageMarkup_clean (hclean _ _ himgmem)
          (cleanField_append (hvc v (List.mem_cons_self _ _)) (by decide)) (by decide)
      cases hfind : findSub (imageMarker v) content with
      | none =>
          rw [jsReplaceFirst_of_not_found hfind]
      | some i =>
          obtain ⟨hocc, -⟩ := findSub_eq_some hfind
          rw [jsReplaceFirst_splice hfind (cleanField_no_dollar hmk)]
          nth_rewrite 1 [eq_take_append_drop_of_occursAtB hocc]
          exact Relation.ReflTransGen.single
            (MarkerStep.subst entry v _ _ _ hentry (hv v (List.mem_cons_self _ _)) himgmem)

/-- The section fold likewise only performs whole-marker steps. -/
theorem applySections_resolves (imageMap : Str → List UnsplashImage)
    (sm : List (Str × List Str))
    (hclean : ∀ b, ∀ img ∈ imageMap b, cleanImage img = true)
    (hsm : ∀ e ∈ sm, ∀ v ∈ e.2, cleanField v = true) :
    ∀ (l : List (Str × List Str)), (∀ e ∈ l, e ∈ sm) → ∀ content,
      Relation.ReflTransGen (MarkerStep imageMap sm) content
        (applySections imageMap l content) := by
  intro l
  induction l with
  | nil =>
      intro _ content
      exact Relation.ReflTransGen.refl
  | cons e t ih =>
      intro hl content
      have hesm : e ∈ sm := hl e (List.mem_cons_self _ _)
      have hstep : Relation.ReflTransGen (MarkerStep imageMap sm) content
          (if !(imageMap e.1).isEmpty then applyVariants (imageMap e.1) e.2 0 content
           else content) := by
        split
        · next hcond =>
            refine applyVariants_resolves imageMap sm hclean e hesm ?_ e.2
              (fun v hv => hv) (fun v hv => hsm e hesm v hv) 0 content
            simpa using hcond
        · exact Relation.ReflTransGen.refl
      refine Relation.ReflTransGen.trans hstep ?_
      have := ih (fun e2 h2 => hl e2 (List.mem_cons_of_mem _ h2))
        (if !(imageMap e.1).isEmpty then applyVariants (imageMap e.1) e.2 0 content
         else content)
      simpa [applySections, List.foldl_cons] using this

/-- Entries whose fetch returned no candidates are skipped by the
section fold: filtering them away changes nothing. -/
theorem foldl_sections_skips_dead (imageMap : Str → List UnsplashImage) :
    ∀ (sm : List (Str × List Str)) (content : Str),
      sm.foldl (fun content entry =>
          let images := imageMap entry.1
          if !images.isEmpty then applyVariants images entry.2 0 content else content) content
        = (sm.filter (fun e => !(imageMap e.1).isEmpty)).foldl (fun content entry =>
          let images := imageMap entry.1
          if !images.isEmpty then applyVariants images entry.2 0 content else content)
          content := by
  intro sm
  induction sm with
  | nil => intro content; rfl
  | cons e t ih =>
      intro content
      by_cases hdead : (imageMap e.1).isEmpty = true
      · rw [List.filter_cons_of_neg (by simp [hdead]), List.foldl_cons]
        dsimp only
        rw [hdead]
        simp only [Bool.not_true]
        rw [if_neg (by simp)]
        exact ih content
      · rw [List.filter_cons_of_pos (by simp [hdead]), List.foldl_cons, List.foldl_cons]
        exact ih _

/-- **C8**: after `enhanceWithImages`, every markup file's content is
reachable from its original content by a sequence of whole-marker
resolution steps — each step replaces one occurrence of a recorded
variant's `[IMAGE:...]` marker in its entirety by a complete image
element built from one of that section's fetched candidates, and any
marker not so replaced is left character-for-character verbatim (no
step can rewrite a marker partially); non-markup files are unchanged,
and sections whose image fetch returned no candidates are skipped
outright, keeping their markers unchanged.  Image fields are assumed
free of `[` and `$` (with a `$` in a fetched field, JavaScript
GetSubstitution semantics could mangle the spliced element). -/
theorem enhance_marker_resolution (imageMap : Str → List UnsplashImage) (files : List GFile)
    (hclean : ∀ b, ∀ img ∈ imageMap b, cleanImage img = true) :
    List.Forall₂ (fun f g =>
        g.path = f.path ∧ g.ftype = f.ftype ∧
        (f.ftype = str "html" →
          Relation.ReflTransGen (MarkerStep imageMap (buildSectionsMap files))
            f.content g.content) ∧
        (f.ftype ≠ str "html" → g.content = f.content))
      files (enhanceWithImagesFiles imageMap files) ∧
    (∀ (sm : List (Str × List Str)) (content : Str),
      applySections imageMap sm content
        = applySections imageMap (sm.filter (fun e => !(imageMap e.1).isEmpty)) content) := by
  constructor
  · by_cases hempty : (buildSectionsMap files).isEmpty = true
    · rw [show enhanceWithImagesFiles imageMap files = files from by
        simp [enhanceWithImagesFiles, hempty]]
      exact List.forall₂_same.mpr
        (fun f hf => ⟨rfl, rfl, fun _ => Relation.ReflTransGen.refl, fun _ => rfl⟩)
    · rw [show enhanceWithImagesFiles imageMap files = files.map (fun f =>
          if f.ftype = str "html" then
            { f with content := applySections imageMap (buildSectionsMap files) f.content }
          else f) from by simp [enhanceWithImagesFiles, hempty]]
      rw [List.forall₂_map_right_iff]
      refine List.forall₂_same.mpr (fun f hf => ?_)
      by_cases hh : f.ftype = str "html"
      · rw [if_pos hh]
        refine ⟨rfl, rfl, fun _ => ?_, fun hnn => absurd hh hnn⟩
        exact applySections_resolves imageMap (buildSectionsMap files) hclean
          (fun e he v hv => cleanField_of_wordChar (buildSectionsMap_wordChar files e he v hv))
          (buildSectionsMap files) (fun e he => he) f.content
      · rw [if_neg hh]
        exact ⟨rfl, rfl, fun hhh => absurd hhh hh, fun _ => rfl⟩
  · intro sm content
    exact foldl_sections_skips_dead imageMap sm content

/-- A clean fetched candidate for the `gallery` section. -/
def c8Img : UnsplashImage :=
  ⟨str "img-1", str "https://images.example/g", str "a gallery photo",
   str "gallery shot", str "Gal"⟩

/-- A fetch oracle: one candidate for `gallery`, none for any other
section. -/
def c8Map : Str → List UnsplashImage :=
  fun b => if b = str "gallery" then [c8Img] else []

/-- A markup file with a resolvable `gallery1` marker and an
unresolvable `hero` marker, plus a stylesheet. -/
def c8Files : List GFile :=
  [GFile.mk (str "index.html")
    (str "<main>[IMAGE:gallery1] and [IMAGE:hero]</main>") (str "html"),
   GFile.mk (str "style.css") (str "body") (str "css")]

/-- C8 witness: on the concrete files the resolution relation holds,
the dead `hero` entry is skipped, and evaluating the pipeline shows
`[IMAGE:hero]` surviving verbatim while `[IMAGE:gallery1]` is gone. -/
theorem enhance_marker_resolution_witness :
    (List.Forall₂ (fun f g =>
        g.path = f.path ∧ g.ftype = f.ftype ∧
        (f.ftype = str "html" →
          Relation.ReflTransGen (MarkerStep c8Map (buildSectionsMap c8Files))
            f.content g.content) ∧
        (f.ftype ≠ str "html" → g.content = f.content))
      c8Files (enhanceWithImagesFiles c8Map c8Files)) ∧
    (applySections c8Map [(str "hero", [str "hero"])] (str "<p>[IMAGE:hero]</p>")
      = applySections c8Map
          ([(str "hero", [str "hero"])].filter (fun e => !(c8Map e.1).isEmpty))
          (str "<p>[IMAGE:hero]</p>")) ∧
    (∀ f ∈ enhanceWithImagesFiles c8Map c8Files, f.path = str "index.html" →
      hasSub (imageMarker (str "hero")) f.content = true ∧
      hasSub (imageMarker (str "gallery1")) f.content = false) := by
  have hclean : ∀ b, ∀ img ∈ c8Map b, cleanImage img = true := by
    intro b img h
    simp only [c8Map] at h
    split at h
    · simp only [List.mem_singleton] at h
      subst h
      decide
    · simp at h
  refine ⟨(enhance_marker_resolution c8Map c8Files hclean).1,
    (enhance_marker_resolution c8Map c8Files hclean).2 [(str "hero", [str "hero"])]
      (str "<p>[IMAGE:hero]</p>"), by decide⟩
